import Mathlib

/-!
Verification development for the OmniMailbox SPSC channel library.

The C++ sources are shallowly embedded: each helper of
`include/omni/detail/queue_helpers.hpp` and `include/omni/detail/config.hpp`
becomes a Lean function on `Nat`, the mutable queue state of
`include/omni/detail/spsc_queue.hpp` together with the producer/consumer
handle state (`src/producer_handle.cpp`, `src/consumer_handle.cpp`) becomes
the record `ChanState`, and every endpoint operation becomes a state
transformer.  The embedding is sequential: one operation runs to completion
before the next starts, which is the observable behaviour of the SPSC
protocol when the two endpoint threads do not overlap.  Machine indices are
`uint64_t` in the source; they are modelled as `Nat` because indices start
at 0, are only ever incremented by 1, and every consumer of an index first
reduces it modulo the (power-of-two) capacity, so 2^64 wrap-around is
unobservable for any run shorter than 2^64 operations.  Buffer memory is a
byte function `Nat → Nat`; writes truncate to a byte (`% 256`) as a
`uint8_t` store does.
-/

namespace Omni

/-- Push operation result codes (`config.hpp`, enum `PushResult`). -/
inductive PushResult where
  | Success
  | Timeout
  | ChannelClosed
  | InvalidSize
  | QueueFull
deriving DecidableEq

/-- Pop operation result codes (`config.hpp`, enum `PopResult`). -/
inductive PopResult where
  | Success
  | Timeout
  | ChannelClosed
  | Empty
deriving DecidableEq

/-- Channel creation error codes (`config.hpp`, enum `ChannelError`). -/
inductive ChannelError where
  | Success
  | NameExists
  | InvalidConfig
  | AllocationFailed
deriving DecidableEq

/-- One step `v |= v >> k` of the bit-smearing cascade in
`ChannelConfig::RoundUpPowerOf2` (`config.hpp`). -/
def OrShift (y k : Nat) : Nat := y ||| (y >>> k)

/-- `ChannelConfig::RoundUpPowerOf2` (`config.hpp`): the classic
or-shift cascade `v--; v|=v>>1; v|=v>>2; v|=v>>4; v|=v>>8; v|=v>>16;
v|=v>>32; v++`. -/
def RoundUpPowerOf2 (value : Nat) : Nat :=
  if value = 0 then 1
  else
    OrShift (OrShift (OrShift (OrShift (OrShift
      (OrShift (value - 1) 1) 2) 4) 8) 16) 32 + 1

/-- Channel configuration (`config.hpp`, struct `ChannelConfig`). -/
structure ChannelConfig where
  capacity : Nat := 1024
  max_message_size : Nat := 4096
deriving DecidableEq

/-- `ChannelConfig::Normalize` (`config.hpp`): clamp capacity to
[8, 524288] and max message size to [64, 1048576], then round a
non-power-of-two capacity up to the next power of two.
`std::clamp(v, lo, hi)` is `min (max v lo) hi`. -/
def ChannelConfig.Normalize (c : ChannelConfig) : ChannelConfig :=
  let cap := min (max c.capacity 8) 524288
  let mms := min (max c.max_message_size 64) 1048576
  let cap2 := if cap &&& (cap - 1) ≠ 0 then RoundUpPowerOf2 cap else cap
  { capacity := cap2, max_message_size := mms }

/-- `ChannelConfig::IsValid` (`config.hpp`): capacity in range and a power
of two (tested by `(c & (c-1)) != 0` exactly as in the source), message
size in range. -/
def ChannelConfig.IsValid (c : ChannelConfig) : Bool :=
  if c.capacity < 8 ∨ 524288 < c.capacity then false
  else if c.capacity &&& (c.capacity - 1) ≠ 0 then false
  else if c.max_message_size < 64 ∨ 1048576 < c.max_message_size then false
  else true

/-- `MAX_SAFE_MESSAGE_SIZE` (`queue_helpers.hpp`): `SIZE_MAX - 12`. -/
def MAX_SAFE_MESSAGE_SIZE : Nat := 18446744073709551615 - 12

/-- `SIZE_PREFIX_BYTES` (`queue_helpers.hpp`). -/
def SIZE_PREFIX_BYTES : Nat := 4

/-- `detail::IsValidMessageSize` (`queue_helpers.hpp`). -/
def IsValidMessageSize (size max_message_size : Nat) : Prop :=
  0 < size ∧ size ≤ max_message_size ∧ size ≤ MAX_SAFE_MESSAGE_SIZE

instance (size mms : Nat) : Decidable (IsValidMessageSize size mms) := by
  unfold IsValidMessageSize; infer_instance

/-- `detail::IsQueueFull` (`queue_helpers.hpp`):
`((write + 1) & mask) == (read & mask)` with `mask = capacity - 1`. -/
def IsQueueFull (write_index read_index capacity : Nat) : Prop :=
  ((write_index + 1) &&& (capacity - 1)) = (read_index &&& (capacity - 1))

instance (w r c : Nat) : Decidable (IsQueueFull w r c) := by
  unfold IsQueueFull; infer_instance

/-- `detail::IsQueueEmpty` (`queue_helpers.hpp`):
`(read & mask) == (write & mask)`. -/
def IsQueueEmpty (read_index write_index capacity : Nat) : Prop :=
  (read_index &&& (capacity - 1)) = (write_index &&& (capacity - 1))

instance (r w c : Nat) : Decidable (IsQueueEmpty r w c) := by
  unfold IsQueueEmpty; infer_instance

/-- `detail::GetSlotIndex` (`queue_helpers.hpp`): `index & (capacity - 1)`. -/
def GetSlotIndex (index capacity : Nat) : Nat :=
  index &&& (capacity - 1)

/-- `detail::GetSlotPointer` (`queue_helpers.hpp`) with the buffer base
taken as address 0: byte address of the slot for `index`. -/
def GetSlotPtr (index capacity slot_size : Nat) : Nat :=
  GetSlotIndex index capacity * slot_size

/-- `detail::AvailableSlots` (`queue_helpers.hpp`):
`capacity - ((write - read) & mask) - 1`.  The `uint64_t` subtraction
never wraps in a reachable state because `read ≤ write` always holds. -/
def AvailableSlots (write_index read_index capacity : Nat) : Nat :=
  capacity - ((write_index - read_index) &&& (capacity - 1)) - 1

/-- `detail::AvailableMessages` (`queue_helpers.hpp`):
`(write - read) & mask`. -/
def AvailableMessages (read_index write_index capacity : Nat) : Nat :=
  (write_index - read_index) &&& (capacity - 1)

/-- One byte store into the buffer; a `uint8_t` write truncates mod 256. -/
def WriteByte (buf : Nat → Nat) (addr value : Nat) : Nat → Nat :=
  fun a => if a = addr then value % 256 else buf a

/-- `std::memcpy(dst, data, len)` at byte granularity. -/
def WriteBytes (buf : Nat → Nat) (addr : Nat) : List Nat → (Nat → Nat)
  | [] => buf
  | b :: rest => WriteBytes (WriteByte buf addr b) (addr + 1) rest

/-- Read `n` consecutive bytes starting at `addr` (a borrowed view). -/
def ReadBytes (buf : Nat → Nat) (addr n : Nat) : List Nat :=
  (List.range n).map (fun j => buf (addr + j))

/-- `detail::WriteSizePrefix` (`queue_helpers.hpp`): memcpy of the
`uint32_t` message size as 4 little-endian bytes at the slot start.
The cast to `uint32_t` truncates the size mod 2^32. -/
def WriteSizePfx (buf : Nat → Nat) (slot size : Nat) : Nat → Nat :=
  WriteBytes buf slot
    [size % 256, size / 256 % 256, size / 65536 % 256, size / 16777216 % 256]

/-- `detail::ReadSizePrefix` (`queue_helpers.hpp`): memcpy of 4
little-endian bytes from the slot start into a `uint32_t`. -/
def ReadSizePfx (buf : Nat → Nat) (slot : Nat) : Nat :=
  buf slot + 256 * buf (slot + 1) + 65536 * buf (slot + 2) +
    16777216 * buf (slot + 3)

/-- `AlignUp(val, align)` (`spsc_queue.hpp`): `(val+align-1) & ~(align-1)`,
written arithmetically (the two agree for the power-of-two align 8 used by
the source). -/
def AlignUp (val align : Nat) : Nat :=
  (val + align - 1) / align * align

/-- The shared queue state of `spsc_queue.hpp` (geometry, indices, liveness
flags, buffer) joined with the per-endpoint handle state that the claims
need: the producer's outstanding-reservation slot
(`ProducerHandle::Impl::reserved_slot_`) and two counters of
`notify_one()` calls on each index (`write_notifies` counts wakes of the
consumer, `read_notifies` wakes of the producer).  Statistics counters are
omitted; no claim mentions them. -/
structure ChanState where
  capacity : Nat
  max_message_size : Nat
  slot_size : Nat
  buffer : Nat → Nat
  write_index : Nat
  read_index : Nat
  producer_alive : Bool
  consumer_alive : Bool
  reserved_slot : Option Nat
  write_notifies : Nat
  read_notifies : Nat

/-- A freshly created channel: `SPSCQueue::SPSCQueue(cap, max_msg_size)`
zero-fills the buffer; both liveness flags start true; the handle
constructors store `true` again; no reservation is outstanding. -/
def initChan (cap mms : Nat) : ChanState :=
  { capacity := cap
    max_message_size := mms
    slot_size := AlignUp (4 + mms) 8
    buffer := fun _ => 0
    write_index := 0
    read_index := 0
    producer_alive := true
    consumer_alive := true
    reserved_slot := none
    write_notifies := 0
    read_notifies := 0 }

/-- `ProducerHandle::Reserve` (`producer_handle.cpp`): validate the size,
refuse a second outstanding reservation, check the consumer liveness flag,
check fullness, then remember the reserved slot index and hand out the
payload address (`slot + 4`).  No index is advanced. -/
def Reserve (s : ChanState) (bytes : Nat) : Option (Nat × ChanState) :=
  if ¬ IsValidMessageSize bytes s.max_message_size then none
  else if s.reserved_slot.isSome then none
  else if ¬ s.consumer_alive then none
  else if IsQueueFull s.write_index s.read_index s.capacity then none
  else
    let slot := GetSlotPtr s.write_index s.capacity s.slot_size
    some (slot + SIZE_PREFIX_BYTES,
      { s with reserved_slot := some (GetSlotIndex s.write_index s.capacity) })

/-- `ProducerHandle::Commit` (`producer_handle.cpp`): validate the size,
require an outstanding reservation, write the size prefix into the
reserved slot, advance `write_index` by one (release), wake the consumer,
clear the reservation. -/
def Commit (s : ChanState) (actual_bytes : Nat) : Bool × ChanState :=
  if ¬ IsValidMessageSize actual_bytes s.max_message_size then (false, s)
  else
    match s.reserved_slot with
    | none => (false, s)
    | some slot_index =>
      let slot := GetSlotPtr slot_index s.capacity s.slot_size
      (true,
        { s with
          buffer := WriteSizePfx s.buffer slot actual_bytes
          write_index := s.write_index + 1
          write_notifies := s.write_notifies + 1
          reserved_slot := none })

/-- `ProducerHandle::Rollback` (`producer_handle.cpp`): clear the
reservation without advancing `write_index`. -/
def Rollback (s : ChanState) : ChanState :=
  { s with reserved_slot := none }

/-- The caller of `Reserve` copying `data` into the returned payload view
(the `std::memcpy` of `TryPush`/`BlockingPush`, or a direct client write
through the zero-copy view). -/
def WriteView (s : ChanState) (addr : Nat) (data : List Nat) : ChanState :=
  { s with buffer := WriteBytes s.buffer addr data }

/-- `ProducerHandle::TryPush` (`producer_handle.cpp`): validate, check the
consumer liveness flag, reserve, copy the bytes, commit. -/
def TryPush (s : ChanState) (data : List Nat) : PushResult × ChanState :=
  if ¬ IsValidMessageSize data.length s.max_message_size then
    (PushResult.InvalidSize, s)
  else if ¬ s.consumer_alive then (PushResult.ChannelClosed, s)
  else
    match Reserve s data.length with
    | none => (PushResult.QueueFull, s)
    | some (addr, s1) =>
      let s2 := WriteView s1 addr data
      match Commit s2 data.length with
      | (true, s3) => (PushResult.Success, s3)
      | (false, s3) => (PushResult.QueueFull, s3)

/-- The per-message loop of `ProducerHandle::BatchPush`
(`producer_handle.cpp`): for each message, stop at the first that would
fill the queue, otherwise write the size prefix and the payload into the
slot of the current `write_index` and advance `write_index` (release).
Returns the final state and the count written. -/
def BatchPushLoop : ChanState → List (List Nat) → ChanState × Nat
  | s, [] => (s, 0)
  | s, msg :: rest =>
    if IsQueueFull s.write_index s.read_index s.capacity then (s, 0)
    else
      let slot := GetSlotPtr s.write_index s.capacity s.slot_size
      let buf1 := WriteSizePfx s.buffer slot msg.length
      let buf2 := WriteBytes buf1 (slot + SIZE_PREFIX_BYTES) msg
      let s1 := { s with buffer := buf2, write_index := s.write_index + 1 }
      let (s2, n) := BatchPushLoop s1 rest
      (s2, n + 1)

/-- `ProducerHandle::BatchPush` (`producer_handle.cpp`): empty-batch early
exit, fail-fast validation of every message, a single consumer-liveness
check, the per-message loop, then a single wake if anything was pushed.
There is no check for an outstanding reservation. -/
def BatchPush (s : ChanState) (messages : List (List Nat)) :
    ChanState × Nat :=
  if messages.isEmpty then (s, 0)
  else if ¬ (∀ msg ∈ messages, IsValidMessageSize msg.length s.max_message_size)
  then (s, 0)
  else if ¬ s.consumer_alive then (s, 0)
  else
    let (s1, pushed) := BatchPushLoop s messages
    if 0 < pushed then
      ({ s1 with write_notifies := s1.write_notifies + 1 }, pushed)
    else (s1, pushed)

/-- `ConsumerHandle::TryPop` (`consumer_handle.cpp`): read the producer
liveness flag, check emptiness (channel-closed beats empty when the
producer is dead), otherwise decode the slot at `read_index`, return the
zero-copy payload view, advance `read_index` (release) and wake the
producer. -/
def TryPop (s : ChanState) : PopResult × Option (List Nat) × ChanState :=
  if IsQueueEmpty s.read_index s.write_index s.capacity then
    if ¬ s.producer_alive then (PopResult.ChannelClosed, none, s)
    else (PopResult.Empty, none, s)
  else
    let slot := GetSlotPtr s.read_index s.capacity s.slot_size
    let n := ReadSizePfx s.buffer slot
    let payload := ReadBytes s.buffer (slot + SIZE_PREFIX_BYTES) n
    (PopResult.Success, some payload,
      { s with
        read_index := s.read_index + 1
        read_notifies := s.read_notifies + 1 })

/-- `ConsumerHandle::BlockingPop` with a finite positive timeout
(`consumer_handle.cpp`), in the sequential model: the fast-path `TryPop`
decides `Success`/`ChannelClosed` immediately; otherwise the queue is
empty with a live producer and, since no other thread runs during the
call, the retry loop observes an unchanged queue until the deadline and
returns `Timeout` (no wake is emitted on that path). -/
def BlockingPop (s : ChanState) : PopResult × Option (List Nat) × ChanState :=
  match TryPop s with
  | (PopResult.Success, m, s1) => (PopResult.Success, m, s1)
  | (PopResult.ChannelClosed, m, s1) => (PopResult.ChannelClosed, m, s1)
  | (_, _, s1) => (PopResult.Timeout, none, s1)

/-- The synchronous drain loop of `ConsumerHandle::BatchPop`
(`consumer_handle.cpp`): while fewer than the budget have been taken and
the queue is non-empty, decode the slot at `read_index`, collect the view
and advance `read_index` (release) — with no wake per message. -/
def BatchPopLoop : ChanState → Nat → ChanState × List (List Nat)
  | s, 0 => (s, [])
  | s, k + 1 =>
    if IsQueueEmpty s.read_index s.write_index s.capacity then (s, [])
    else
      let slot := GetSlotPtr s.read_index s.capacity s.slot_size
      let n := ReadSizePfx s.buffer slot
      let payload := ReadBytes s.buffer (slot + SIZE_PREFIX_BYTES) n
      let s1 := { s with read_index := s.read_index + 1 }
      let (s2, rest) := BatchPopLoop s1 k
      (s2, payload :: rest)

/-- `ConsumerHandle::BatchPop` (`consumer_handle.cpp`): an explicit
`max_count = 0` early exit returning `Empty`; when the timeout is positive
a `BlockingPop` prefix whose non-success result is returned as-is; then
the synchronous drain; a single wake if at least one message was
consumed; otherwise `ChannelClosed` when the producer was observed dead,
else `Empty`.  `timeout_pos` stands for `timeout.count() > 0`. -/
def BatchPop (s : ChanState) (max_count : Nat) (timeout_pos : Bool) :
    PopResult × List (List Nat) × ChanState :=
  if max_count = 0 then (PopResult.Empty, [], s)
  else
    if timeout_pos then
      match BlockingPop s with
      | (PopResult.Success, some m, s1) =>
        let (s2, more) := BatchPopLoop s1 (max_count - 1)
        (PopResult.Success, m :: more,
          { s2 with read_notifies := s2.read_notifies + 1 })
      | (r, _, s1) => (r, [], s1)
    else
      let (s2, msgs) := BatchPopLoop s max_count
      if msgs.isEmpty then
        if ¬ s.producer_alive then (PopResult.ChannelClosed, [], s2)
        else (PopResult.Empty, [], s2)
      else
        (PopResult.Success, msgs,
          { s2 with read_notifies := s2.read_notifies + 1 })

/-- `ProducerHandle::~ProducerHandle` (`producer_handle.cpp`): fence,
store `false` into `producer_alive`, wake the consumer. -/
def DestroyProducer (s : ChanState) : ChanState :=
  { s with producer_alive := false, write_notifies := s.write_notifies + 1 }

/-- `ConsumerHandle::~ConsumerHandle` (`consumer_handle.cpp`): fence,
store `false` into `consumer_alive`, wake the producer. -/
def DestroyConsumer (s : ChanState) : ChanState :=
  { s with consumer_alive := false, read_notifies := s.read_notifies + 1 }

/-- One endpoint operation, as enumerated by claim C2. -/
inductive Op where
  | reserve (n : Nat)
  | commit (n : Nat)
  | rollback
  | writeView (addr : Nat) (data : List Nat)
  | tryPush (data : List Nat)
  | batchPush (msgs : List (List Nat))
  | tryPop
  | batchPop (max_count : Nat) (timeout_pos : Bool)

/-- Apply one operation to the channel, discarding its result value. -/
def applyOp (s : ChanState) : Op → ChanState
  | Op.reserve n =>
    match Reserve s n with
    | none => s
    | some (_, s1) => s1
  | Op.commit n => (Commit s n).2
  | Op.rollback => Rollback s
  | Op.writeView addr data => WriteView s addr data
  | Op.tryPush data => (TryPush s data).2
  | Op.batchPush msgs => (BatchPush s msgs).1
  | Op.tryPop => (TryPop s).2.2
  | Op.batchPop k tp => (BatchPop s k tp).2.2

/-- Run a sequence of endpoint operations. -/
def RunOps (s : ChanState) : List Op → ChanState
  | [] => s
  | op :: rest => RunOps (applyOp s op) rest

/-- Operations performed by the producer endpoint (claim C3 quantifies
over these; the two pop operations belong to the consumer). -/
def Op.isProducerOp : Op → Bool
  | Op.tryPop => false
  | Op.batchPop _ _ => false
  | _ => true

/-- Valid (normalized) channel geometry, as produced by
`ChannelConfig::Normalize` and the `SPSCQueue` constructor: capacity a
power of two in [8, 524288] (power-of-two tested by `(c & (c-1)) == 0`
exactly as the source does), max message size in [64, 1048576], slot size
`AlignUp(4 + max_message_size, 8)`. -/
def ValidGeom (s : ChanState) : Prop :=
  8 ≤ s.capacity ∧ s.capacity ≤ 524288 ∧
  s.capacity &&& (s.capacity - 1) = 0 ∧
  64 ≤ s.max_message_size ∧ s.max_message_size ≤ 1048576 ∧
  s.slot_size = AlignUp (4 + s.max_message_size) 8

instance (s : ChanState) : Decidable (ValidGeom s) := by
  unfold ValidGeom; infer_instance

/-- A number in `[2^t, 2^(t+1))` has bit `t` set. -/
theorem testBit_of_bounds {x t : Nat} (h1 : 2 ^ t ≤ x)
    (h2 : x < 2 ^ (t + 1)) : x.testBit t = true := by
  rw [Nat.testBit_to_div_mod]
  have hdiv : x / 2 ^ t = 1 := by
    have hp : 0 < 2 ^ t := Nat.pos_pow_of_pos t (by omega)
    have hlo : 1 ≤ x / 2 ^ t := (Nat.le_div_iff_mul_le hp).mpr (by omega)
    have hhi : x / 2 ^ t < 2 := by
      rw [Nat.div_lt_iff_lt_mul hp]
      have : 2 ^ (t + 1) = 2 * 2 ^ t := by ring
      omega
    omega
  rw [hdiv]
  rfl

/-- `(c & (c-1)) == 0` really does test power-of-two-ness for `c ≥ 1`:
this is the direction the source relies on. -/
theorem pow2_of_land_eq_zero {c : Nat} (hc : 0 < c)
    (h : c &&& (c - 1) = 0) : c = 2 ^ Nat.log2 c := by
  by_contra hne
  have hlo : 2 ^ Nat.log2 c ≤ c := Nat.log2_self_le (by omega)
  have hhi : c < 2 ^ (Nat.log2 c + 1) := Nat.lt_log2_self
  have hb1 : c.testBit (Nat.log2 c) = true := testBit_of_bounds hlo hhi
  have hb2 : (c - 1).testBit (Nat.log2 c) = true := by
    apply testBit_of_bounds
    · omega
    · omega
  have : (c &&& (c - 1)).testBit (Nat.log2 c) = true := by
    rw [Nat.testBit_and, hb1, hb2]
    rfl
  rw [h] at this
  simp at this

/-- Message decoded from the slot of index `i`: the first
`ReadSizePrefix(slot)` payload bytes, exactly the view `TryPop` builds. -/
def DecodeSlot (s : ChanState) (i : Nat) : List Nat :=
  ReadBytes s.buffer (GetSlotPtr i s.capacity s.slot_size + SIZE_PREFIX_BYTES)
    (ReadSizePfx s.buffer (GetSlotPtr i s.capacity s.slot_size))

/-- The slot of index `i` holds a well-formed length prefix. -/
def SlotOK (s : ChanState) (i : Nat) : Prop :=
  0 < ReadSizePfx s.buffer (GetSlotPtr i s.capacity s.slot_size) ∧
  ReadSizePfx s.buffer (GetSlotPtr i s.capacity s.slot_size) ≤
    s.max_message_size

instance (s : ChanState) (i : Nat) : Decidable (SlotOK s i) := by
  unfold SlotOK; infer_instance

/-- Decoded slots of the `d` indices starting at `i`. -/
def MsgsAux (s : ChanState) : Nat → Nat → List (List Nat)
  | _, 0 => []
  | i, d + 1 => DecodeSlot s i :: MsgsAux s (i + 1) d

/-- Abstraction function: the sequence of stored messages, oldest first —
the decoded slots of indices `read_index, …, write_index − 1` (spec
invariant I4). -/
def Msgs (s : ChanState) : List (List Nat) :=
  MsgsAux s s.read_index (s.write_index - s.read_index)

/-- State invariant: indices ordered, fewer than `capacity` stored
messages (spec I2), and every stored slot well formed (spec I4). -/
def Inv (s : ChanState) : Prop :=
  s.read_index ≤ s.write_index ∧
  s.write_index - s.read_index < s.capacity ∧
  ∀ j, j < s.write_index - s.read_index → SlotOK s (s.read_index + j)

instance (s : ChanState) : Decidable (Inv s) := by
  unfold Inv; infer_instance

/-! ### Arithmetic bridge: bit masks versus `%` for power-of-two capacity -/

theorem and_mask_eq_mod (x : Nat) {cap : Nat}
    (h : cap = 2 ^ Nat.log2 cap) : x &&& (cap - 1) = x % cap := by
  conv_lhs => rw [h]
  conv_rhs => rw [h]
  exact Nat.and_pow_two_sub_one_eq_mod x _

theorem getSlotIndex_eq_mod {cap : Nat} (i : Nat)
    (h : cap = 2 ^ Nat.log2 cap) : GetSlotIndex i cap = i % cap :=
  and_mask_eq_mod i h

theorem isQueueFull_iff_mod {w r cap : Nat} (h : cap = 2 ^ Nat.log2 cap) :
    IsQueueFull w r cap ↔ (w + 1) % cap = r % cap := by
  unfold IsQueueFull
  rw [and_mask_eq_mod _ h, and_mask_eq_mod _ h]

theorem isQueueEmpty_iff_mod {r w cap : Nat} (h : cap = 2 ^ Nat.log2 cap) :
    IsQueueEmpty r w cap ↔ r % cap = w % cap := by
  unfold IsQueueEmpty
  rw [and_mask_eq_mod _ h, and_mask_eq_mod _ h]

/-! ### Byte-buffer lemmas -/

theorem writeBytes_out {data : List Nat} {buf : Nat → Nat} {addr a : Nat}
    (h : a < addr ∨ addr + data.length ≤ a) :
    WriteBytes buf addr data a = buf a := by
  induction data generalizing buf addr with
  | nil => rfl
  | cons b rest ih =>
    have hlen : (b :: rest).length = rest.length + 1 := by simp
    have h1 : a < addr + 1 ∨ (addr + 1) + rest.length ≤ a := by
      rw [hlen] at h; omega
    have hne : a ≠ addr := by rw [hlen] at h; omega
    show WriteBytes (WriteByte buf addr b) (addr + 1) rest a = buf a
    rw [ih h1, WriteByte]
    simp [hne]

theorem writeBytes_in {data : List Nat} {buf : Nat → Nat} {addr i : Nat}
    (h : i < data.length) :
    WriteBytes buf addr data (addr + i) = data.getD i 0 % 256 := by
  induction data generalizing buf addr i with
  | nil => simp at h
  | cons b rest ih =>
    match i with
    | 0 =>
      show WriteBytes (WriteByte buf addr b) (addr + 1) rest (addr + 0) =
        b % 256
      rw [writeBytes_out (by omega), WriteByte]
      simp
    | j + 1 =>
      have hj : j < rest.length := by simp at h; omega
      show WriteBytes (WriteByte buf addr b) (addr + 1) rest (addr + (j + 1)) =
        rest.getD j 0 % 256
      have harith : addr + (j + 1) = (addr + 1) + j := by omega
      rw [harith, ih hj]

theorem readBytes_congr {buf1 buf2 : Nat → Nat} {addr n : Nat}
    (h : ∀ j, j < n → buf1 (addr + j) = buf2 (addr + j)) :
    ReadBytes buf1 addr n = ReadBytes buf2 addr n := by
  unfold ReadBytes
  apply List.map_congr_left
  intro j hj
  exact h j (List.mem_range.mp hj)

theorem readBytes_writeBytes {data : List Nat} {buf : Nat → Nat}
    {addr : Nat} (hb : ∀ b ∈ data, b < 256) :
    ReadBytes (WriteBytes buf addr data) addr data.length = data := by
  apply List.ext_getElem
  · simp [ReadBytes]
  · intro i h1 h2
    have hi : i < data.length := h2
    have hlen : (ReadBytes (WriteBytes buf addr data) addr data.length).length
        = data.length := by simp [ReadBytes]
    simp only [ReadBytes, List.getElem_map, List.getElem_range]
    rw [writeBytes_in hi]
    have : data.getD i 0 = data[i] := by
      rw [List.getD_eq_getElem data 0 hi]
    rw [this, Nat.mod_eq_of_lt (hb _ (List.getElem_mem hi))]

theorem readSizePfx_congr {buf1 buf2 : Nat → Nat} {slot : Nat}
    (h : ∀ j, j < 4 → buf1 (slot + j) = buf2 (slot + j)) :
    ReadSizePfx buf1 slot = ReadSizePfx buf2 slot := by
  have h0 : buf1 slot = buf2 slot := by simpa using h 0 (by omega)
  have h1 := h 1 (by omega)
  have h2 := h 2 (by omega)
  have h3 := h 3 (by omega)
  unfold ReadSizePfx
  rw [h0, h1, h2, h3]

theorem readSizePfx_writeSizePfx (buf : Nat → Nat) (slot n : Nat) :
    ReadSizePfx (WriteSizePfx buf slot n) slot = n % 4294967296 := by
  unfold WriteSizePfx ReadSizePfx
  have e0 := @writeBytes_in [n % 256, n / 256 % 256, n / 65536 % 256,
    n / 16777216 % 256] buf slot 0 (by simp)
  have e1 := @writeBytes_in [n % 256, n / 256 % 256, n / 65536 % 256,
    n / 16777216 % 256] buf slot 1 (by simp)
  have e2 := @writeBytes_in [n % 256, n / 256 % 256, n / 65536 % 256,
    n / 16777216 % 256] buf slot 2 (by simp)
  have e3 := @writeBytes_in [n % 256, n / 256 % 256, n / 65536 % 256,
    n / 16777216 % 256] buf slot 3 (by simp)
  have g0 : ([n % 256, n / 256 % 256, n / 65536 % 256,
      n / 16777216 % 256] : List Nat).getD 0 0 = n % 256 := rfl
  have g1 : ([n % 256, n / 256 % 256, n / 65536 % 256,
      n / 16777216 % 256] : List Nat).getD 1 0 = n / 256 % 256 := rfl
  have g2 : ([n % 256, n / 256 % 256, n / 65536 % 256,
      n / 16777216 % 256] : List Nat).getD 2 0 = n / 65536 % 256 := rfl
  have g3 : ([n % 256, n / 256 % 256, n / 65536 % 256,
      n / 16777216 % 256] : List Nat).getD 3 0 = n / 16777216 % 256 := rfl
  rw [g0] at e0
  rw [g1] at e1
  rw [g2] at e2
  rw [g3] at e3
  have hz : slot + 0 = slot := by omega
  rw [hz] at e0
  rw [e0, e1, e2, e3]
  omega

theorem writeSizePfx_out {buf : Nat → Nat} {slot n a : Nat}
    (h : a < slot ∨ slot + 4 ≤ a) : WriteSizePfx buf slot n a = buf a := by
  unfold WriteSizePfx
  exact writeBytes_out (by simpa using h)

/-! ### Slot-region disjointness -/

theorem addr_lt_of_slot_lt {ss u v o1 o2 : Nat} (huv : u < v)
    (h1 : o1 < ss) : u * ss + o1 < v * ss + o2 := by
  have h3 : (u + 1) * ss ≤ v * ss := Nat.mul_le_mul_right ss huv
  calc u * ss + o1 < u * ss + ss := by omega
    _ = (u + 1) * ss := by ring
    _ ≤ v * ss := h3
    _ ≤ v * ss + o2 := Nat.le_add_right _ _

/-- A write confined to the region of slot `u` misses every byte of the
region of a different slot `v`. -/
theorem writeBytes_other_slot {buf : Nat → Nat} {ss u v start off : Nat}
    (data : List Nat) (hs1 : u * ss ≤ start)
    (hs2 : start + data.length ≤ u * ss + ss)
    (hne : u ≠ v) (hoff : off < ss) :
    WriteBytes buf start data (v * ss + off) = buf (v * ss + off) := by
  apply writeBytes_out
  rcases Nat.lt_or_ge u v with h | h
  · right
    have := @addr_lt_of_slot_lt ss u v (ss - 1) off h (by omega)
    omega
  · left
    have hvu : v < u := by omega
    have := @addr_lt_of_slot_lt ss v u off 0 hvu hoff
    omega

/-! ### Full / empty tests versus the message count, for `read ≤ write`
and fewer than `capacity` pending messages -/

theorem full_iff_pending {w r cap : Nat} (hcap : 0 < cap) (hle : r ≤ w)
    (hlt : w - r < cap) : (w + 1) % cap = r % cap ↔ w - r = cap - 1 := by
  have hra : r ≤ w + 1 := by omega
  have hdvd : r % cap = (w + 1) % cap ↔ cap ∣ (w + 1 - r) :=
    Nat.modEq_iff_dvd' hra
  constructor
  · intro h
    have hd : cap ∣ (w + 1 - r) := hdvd.mp h.symm
    rcases Nat.eq_zero_or_pos (w + 1 - r) with h0 | hpos
    · omega
    · have := Nat.le_of_dvd hpos hd
      omega
  · intro h
    have : w + 1 - r = cap := by omega
    exact (hdvd.mpr (this ▸ Dvd.intro 1 (by omega))).symm

theorem empty_iff_pending {w r cap : Nat} (hle : r ≤ w)
    (hlt : w - r < cap) : r % cap = w % cap ↔ r = w := by
  have hdvd : r % cap = w % cap ↔ cap ∣ (w - r) := Nat.modEq_iff_dvd' hle
  constructor
  · intro h
    have := Nat.eq_zero_of_dvd_of_lt (hdvd.mp h)
    omega
  · intro h; rw [h]

theorem mask_mask {a m : Nat} : (a &&& m) &&& m = a &&& m := by
  rw [Nat.and_assoc, Nat.and_self]

theorem getSlotIndex_getSlotIndex {i cap : Nat} :
    GetSlotIndex (GetSlotIndex i cap) cap = GetSlotIndex i cap := mask_mask

/-! ### Characterization of the endpoint operations -/

theorem Reserve_eq_some {s : ChanState} {bytes addr : Nat} {s1 : ChanState}
    (h : Reserve s bytes = some (addr, s1)) :
    IsValidMessageSize bytes s.max_message_size ∧
    s.reserved_slot = none ∧ s.consumer_alive = true ∧
    ¬ IsQueueFull s.write_index s.read_index s.capacity ∧
    addr = GetSlotPtr s.write_index s.capacity s.slot_size +
      SIZE_PREFIX_BYTES ∧
    s1 = { s with
      reserved_slot := some (GetSlotIndex s.write_index s.capacity) } := by
  unfold Reserve at h
  split_ifs at h with h1 h2 h3 h4
  have e := Option.some.inj h
  refine ⟨by tauto, Option.not_isSome_iff_eq_none.mp h2, by tauto,
    h4, ?_, ?_⟩
  · exact (Prod.mk.injEq _ _ _ _ ▸ e).1.symm
  · exact (Prod.mk.injEq _ _ _ _ ▸ e).2.symm

theorem Reserve_some_of (s : ChanState) (bytes : Nat)
    (h1 : IsValidMessageSize bytes s.max_message_size)
    (h2 : s.reserved_slot = none) (h3 : s.consumer_alive = true)
    (h4 : ¬ IsQueueFull s.write_index s.read_index s.capacity) :
    Reserve s bytes =
      some (GetSlotPtr s.write_index s.capacity s.slot_size +
        SIZE_PREFIX_BYTES,
        { s with
          reserved_slot := some (GetSlotIndex s.write_index s.capacity) }) := by
  unfold Reserve
  rw [if_neg (by tauto), if_neg (by simp [h2]), if_neg (by simp [h3]),
    if_neg h4]

theorem Commit_some (s : ChanState) {slot_index : Nat} (actual_bytes : Nat)
    (h1 : IsValidMessageSize actual_bytes s.max_message_size)
    (h2 : s.reserved_slot = some slot_index) :
    Commit s actual_bytes =
      (true,
        { s with
          buffer := WriteSizePfx s.buffer
            (GetSlotPtr slot_index s.capacity s.slot_size) actual_bytes
          write_index := s.write_index + 1
          write_notifies := s.write_notifies + 1
          reserved_slot := none }) := by
  unfold Commit
  rw [if_neg (by tauto), h2]

theorem TryPush_success_state (s : ChanState) (data : List Nat)
    (h1 : IsValidMessageSize data.length s.max_message_size)
    (h2 : s.reserved_slot = none) (h3 : s.consumer_alive = true)
    (h4 : ¬ IsQueueFull s.write_index s.read_index s.capacity) :
    TryPush s data =
      (PushResult.Success,
        { s with
          buffer := WriteSizePfx
            (WriteBytes s.buffer
              (GetSlotPtr s.write_index s.capacity s.slot_size +
                SIZE_PREFIX_BYTES) data)
            (GetSlotPtr s.write_index s.capacity s.slot_size) data.length
          write_index := s.write_index + 1
          write_notifies := s.write_notifies + 1
          reserved_slot := none }) := by
  unfold TryPush
  rw [if_neg (by tauto), if_neg (by simp [h3]), Reserve_some_of s _ h1 h2 h3 h4]
  show (match Commit (WriteView _ _ data) data.length with
    | (true, s3) => (PushResult.Success, s3)
    | (false, s3) => (PushResult.QueueFull, s3)) = _
  rw [Commit_some _ data.length (by exact h1) (by rfl)]
  show (PushResult.Success, _) = _
  refine congrArg _ ?_
  show ({ s with
    buffer := WriteSizePfx _
      (GetSlotPtr (GetSlotIndex s.write_index s.capacity) s.capacity
        s.slot_size) data.length
    write_index := s.write_index + 1
    write_notifies := s.write_notifies + 1
    reserved_slot := none } : ChanState) = _
  have : GetSlotPtr (GetSlotIndex s.write_index s.capacity) s.capacity
      s.slot_size = GetSlotPtr s.write_index s.capacity s.slot_size := by
    unfold GetSlotPtr
    rw [getSlotIndex_getSlotIndex]
  rw [this]
  rfl

theorem TryPop_success_state (s : ChanState)
    (h : ¬ IsQueueEmpty s.read_index s.write_index s.capacity) :
    TryPop s =
      (PopResult.Success, some (DecodeSlot s s.read_index),
        { s with
          read_index := s.read_index + 1
          read_notifies := s.read_notifies + 1 }) := by
  unfold TryPop
  rw [if_neg h]
  rfl

theorem TryPop_empty_state (s : ChanState)
    (h : IsQueueEmpty s.read_index s.write_index s.capacity) :
    TryPop s = (if s.producer_alive then PopResult.Empty
      else PopResult.ChannelClosed, none, s) := by
  unfold TryPop
  rw [if_pos h]
  by_cases hp : s.producer_alive
  · rw [if_neg (by simp [hp]), if_pos hp]
  · rw [if_pos (by simp_all), if_neg hp]

/-! ### Slot-local buffer reasoning -/

theorem geom_cap_pos {s : ChanState} (hg : ValidGeom s) : 0 < s.capacity := by
  have := hg.1; omega

theorem geom_pow2 {s : ChanState} (hg : ValidGeom s) :
    s.capacity = 2 ^ Nat.log2 s.capacity :=
  pow2_of_land_eq_zero (by have := hg.1; omega) hg.2.2.1

theorem geom_slot_size {s : ChanState} (hg : ValidGeom s) :
    4 + s.max_message_size ≤ s.slot_size := by
  have h := hg.2.2.2.2.2
  unfold AlignUp at h
  omega

theorem geom_mms_lt {s : ChanState} (hg : ValidGeom s) :
    s.max_message_size < 4294967296 := by
  have := hg.2.2.2.2.1; omega

theorem slot_ne_of_pending {x y cap : Nat} (hle : y ≤ x) (h1 : 0 < x - y)
    (h2 : x - y < cap) : x % cap ≠ y % cap := by
  intro h
  have hdvd : cap ∣ x - y := (Nat.modEq_iff_dvd' hle).mp h.symm
  have := Nat.eq_zero_of_dvd_of_lt hdvd h2
  omega

theorem writeSizePfx_other_slot {buf : Nat → Nat} {n cap ss i p off : Nat}
    (h4 : 4 ≤ ss) (hoff : off < ss)
    (hne : GetSlotIndex i cap ≠ GetSlotIndex p cap) :
    WriteSizePfx buf (GetSlotPtr i cap ss) n (GetSlotPtr p cap ss + off) =
      buf (GetSlotPtr p cap ss + off) := by
  unfold WriteSizePfx GetSlotPtr
  exact writeBytes_other_slot _ (Nat.le_refl _) (by simp; omega) hne hoff

theorem writeBytes_payload_other_slot {buf : Nat → Nat} {data : List Nat}
    {cap ss i p off : Nat} (hlen : 4 + data.length ≤ ss) (hoff : off < ss)
    (hne : GetSlotIndex i cap ≠ GetSlotIndex p cap) :
    WriteBytes buf (GetSlotPtr i cap ss + 4) data
      (GetSlotPtr p cap ss + off) = buf (GetSlotPtr p cap ss + off) := by
  unfold GetSlotPtr
  exact writeBytes_other_slot _ (by omega) (by omega) hne hoff

/-- Decoding a slot only depends on the bytes of its region, provided its
length prefix fits the region. -/
theorem decode_congr {buf1 buf2 : Nat → Nat} {base bound : Nat}
    (hpre : ∀ j, j < 4 → buf1 (base + j) = buf2 (base + j))
    (hn : ReadSizePfx buf2 base + 4 ≤ bound)
    (hpay : ∀ off, 4 ≤ off → off < bound →
      buf1 (base + off) = buf2 (base + off)) :
    ReadBytes buf1 (base + 4) (ReadSizePfx buf1 base) =
      ReadBytes buf2 (base + 4) (ReadSizePfx buf2 base) := by
  have e : ReadSizePfx buf1 base = ReadSizePfx buf2 base :=
    readSizePfx_congr hpre
  rw [e]
  apply readBytes_congr
  intro j hj
  have h1 : base + 4 + j = base + (4 + j) := by omega
  rw [h1]
  exact hpay (4 + j) (by omega) (by omega)

/-! ### Generic lemmas about the message abstraction -/

theorem msgsAux_congr {s1 s2 : ChanState} (i d : Nat)
    (h : ∀ j, j < d → DecodeSlot s1 (i + j) = DecodeSlot s2 (i + j)) :
    MsgsAux s1 i d = MsgsAux s2 i d := by
  induction d generalizing i with
  | zero => rfl
  | succ k ih =>
    show DecodeSlot s1 i :: MsgsAux s1 (i + 1) k =
      DecodeSlot s2 i :: MsgsAux s2 (i + 1) k
    have h0 : DecodeSlot s1 i = DecodeSlot s2 i := by
      have := h 0 (by omega)
      simpa using this
    rw [h0, ih (i + 1) (fun j hj => by
      have := h (j + 1) (by omega)
      have he : i + (j + 1) = i + 1 + j := by omega
      rw [he] at this
      exact this)]

theorem msgsAux_snoc (s : ChanState) (i d : Nat) :
    MsgsAux s i (d + 1) = MsgsAux s i d ++ [DecodeSlot s (i + d)] := by
  induction d generalizing i with
  | zero => simp [MsgsAux]
  | succ k ih =>
    show DecodeSlot s i :: MsgsAux s (i + 1) (k + 1) = _
    rw [ih (i + 1)]
    show DecodeSlot s i :: (MsgsAux s (i + 1) k ++ [DecodeSlot s (i + 1 + k)])
      = (DecodeSlot s i :: MsgsAux s (i + 1) k) ++ [DecodeSlot s (i + k + 1)]
    have he : i + 1 + k = i + k + 1 := by omega
    rw [he]
    rfl

theorem msgsAux_length (s : ChanState) (i d : Nat) :
    (MsgsAux s i d).length = d := by
  induction d generalizing i with
  | zero => rfl
  | succ k ih =>
    show (DecodeSlot s i :: MsgsAux s (i + 1) k).length = k + 1
    simp [ih]

theorem msgs_length (s : ChanState) :
    (Msgs s).length = s.write_index - s.read_index :=
  msgsAux_length s _ _

/-! ### Effect of a successful push on the message abstraction -/

/-- The state a successful `TryPush` (equivalently, a reserve / copy /
commit round) leaves behind: payload bytes then size prefix written into
the slot of `write_index`, `write_index` advanced, one wake emitted, no
reservation outstanding. -/
def PushedState (s : ChanState) (data : List Nat) : ChanState :=
  { s with
    buffer := WriteSizePfx
      (WriteBytes s.buffer
        (GetSlotPtr s.write_index s.capacity s.slot_size +
          SIZE_PREFIX_BYTES) data)
      (GetSlotPtr s.write_index s.capacity s.slot_size) data.length
    write_index := s.write_index + 1
    write_notifies := s.write_notifies + 1
    reserved_slot := none }

theorem TryPush_eq_pushed (s : ChanState) (data : List Nat)
    (h1 : IsValidMessageSize data.length s.max_message_size)
    (h2 : s.reserved_slot = none) (h3 : s.consumer_alive = true)
    (h4 : ¬ IsQueueFull s.write_index s.read_index s.capacity) :
    TryPush s data = (PushResult.Success, PushedState s data) :=
  TryPush_success_state s data h1 h2 h3 h4

/-- Bytes of any slot other than the written one are untouched by a push. -/
theorem pushed_buffer_other_slot (s : ChanState) (data : List Nat)
    {i off : Nat} (h4ss : 4 ≤ s.slot_size)
    (hlen : 4 + data.length ≤ s.slot_size) (hoff : off < s.slot_size)
    (hne : GetSlotIndex s.write_index s.capacity ≠
      GetSlotIndex i s.capacity) :
    (PushedState s data).buffer
        (GetSlotPtr i s.capacity s.slot_size + off) =
      s.buffer (GetSlotPtr i s.capacity s.slot_size + off) := by
  show WriteSizePfx _ _ _ _ = _
  unfold SIZE_PREFIX_BYTES
  rw [writeSizePfx_other_slot h4ss hoff hne,
    writeBytes_payload_other_slot hlen hoff hne]

/-- Decoding an old stored slot is unchanged by a push into the slot of
`write_index`. -/
theorem pushed_decode_old (s : ChanState) (data : List Nat) {i : Nat}
    (hg : ValidGeom s)
    (hlen : 4 + data.length ≤ s.slot_size)
    (hok : SlotOK s i)
    (hne : GetSlotIndex s.write_index s.capacity ≠
      GetSlotIndex i s.capacity) :
    DecodeSlot (PushedState s data) i = DecodeSlot s i := by
  have hss := geom_slot_size hg
  unfold DecodeSlot
  show ReadBytes (PushedState s data).buffer
      (GetSlotPtr i s.capacity s.slot_size + SIZE_PREFIX_BYTES) _ = _
  apply @decode_congr _ _ _ s.slot_size
  · intro j hj
    exact pushed_buffer_other_slot s data (by omega) hlen (by omega) hne
  · have := hok.2
    omega
  · intro off h4 hof
    exact pushed_buffer_other_slot s data (by omega) hlen hof hne

/-- The written slot of a push decodes to the pushed bytes. -/
theorem pushed_decode_new (s : ChanState) (data : List Nat)
    (hg : ValidGeom s) (hdata : ∀ b ∈ data, b < 256)
    (hlen : data.length ≤ s.max_message_size) :
    DecodeSlot (PushedState s data) s.write_index = data := by
  have hss := geom_slot_size hg
  have hmms := geom_mms_lt hg
  show ReadBytes (PushedState s data).buffer
      (GetSlotPtr s.write_index s.capacity s.slot_size +
        SIZE_PREFIX_BYTES)
      (ReadSizePfx (PushedState s data).buffer
        (GetSlotPtr s.write_index s.capacity s.slot_size)) = data
  have hpfx : ReadSizePfx (PushedState s data).buffer
      (GetSlotPtr s.write_index s.capacity s.slot_size) = data.length := by
    show ReadSizePfx (WriteSizePfx _ _ _) _ = _
    rw [readSizePfx_writeSizePfx]
    omega
  rw [hpfx]
  have hpay : ∀ j, j < data.length →
      (PushedState s data).buffer
        (GetSlotPtr s.write_index s.capacity s.slot_size +
          SIZE_PREFIX_BYTES + j) =
      WriteBytes s.buffer
        (GetSlotPtr s.write_index s.capacity s.slot_size +
          SIZE_PREFIX_BYTES) data
        (GetSlotPtr s.write_index s.capacity s.slot_size +
          SIZE_PREFIX_BYTES + j) := by
    intro j hj
    show WriteSizePfx _ _ _ _ = _
    apply writeSizePfx_out
    right
    show GetSlotPtr s.write_index s.capacity s.slot_size + 4 ≤ _
    unfold SIZE_PREFIX_BYTES
    omega
  rw [readBytes_congr hpay]
  have := @readBytes_writeBytes _ s.buffer
    (GetSlotPtr s.write_index s.capacity s.slot_size +
      SIZE_PREFIX_BYTES) hdata
  exact this

/-- The written slot's length prefix after a push is the pushed length. -/
theorem pushed_pfx_new (s : ChanState) (data : List Nat)
    (hg : ValidGeom s) (hlen : data.length ≤ s.max_message_size) :
    ReadSizePfx (PushedState s data).buffer
      (GetSlotPtr s.write_index s.capacity s.slot_size) = data.length := by
  have hmms := geom_mms_lt hg
  show ReadSizePfx (WriteSizePfx _ _ _) _ = _
  rw [readSizePfx_writeSizePfx]
  omega

/-- The length prefix of any other slot is untouched by a push. -/
theorem pushed_pfx_old (s : ChanState) (data : List Nat) {i : Nat}
    (hg : ValidGeom s) (hlen : 4 + data.length ≤ s.slot_size)
    (hne : GetSlotIndex s.write_index s.capacity ≠
      GetSlotIndex i s.capacity) :
    ReadSizePfx (PushedState s data).buffer
        (GetSlotPtr i s.capacity s.slot_size) =
      ReadSizePfx s.buffer (GetSlotPtr i s.capacity s.slot_size) := by
  have hss := geom_slot_size hg
  apply readSizePfx_congr
  intro j hj
  exact pushed_buffer_other_slot s data (by omega) hlen (by omega) hne

/-- After a push, the old slot indices are still distinct from the new
write slot, so the whole abstraction appends the new message, and the
invariant is preserved. -/
theorem pushed_msgs (s : ChanState) (data : List Nat)
    (hg : ValidGeom s) (hinv : Inv s) (hdata : ∀ b ∈ data, b < 256)
    (h1 : IsValidMessageSize data.length s.max_message_size)
    (h4 : ¬ IsQueueFull s.write_index s.read_index s.capacity) :
    Msgs (PushedState s data) = Msgs s ++ [data] ∧
    Inv (PushedState s data) := by
  obtain ⟨hle, hlt, hok⟩ := hinv
  have hk := geom_pow2 hg
  have hcap := geom_cap_pos hg
  have hss := geom_slot_size hg
  have hmms := geom_mms_lt hg
  have hlen : 4 + data.length ≤ s.slot_size := by
    have := h1.2.1; omega
  have hwidx : (PushedState s data).write_index = s.write_index + 1 := rfl
  have hridx : (PushedState s data).read_index = s.read_index := rfl
  have hnfull : s.write_index - s.read_index ≠ s.capacity - 1 := by
    intro heq
    exact h4 ((isQueueFull_iff_mod hk).mpr
      ((full_iff_pending hcap hle hlt).mpr heq))
  have hnej : ∀ i, s.read_index ≤ i → i < s.write_index →
      GetSlotIndex s.write_index s.capacity ≠ GetSlotIndex i s.capacity := by
    intro i hi1 hi2
    rw [getSlotIndex_eq_mod _ hk, getSlotIndex_eq_mod _ hk]
    exact slot_ne_of_pending (by omega) (by omega) (by omega)
  have hdecs : ∀ j, j < s.write_index - s.read_index →
      DecodeSlot (PushedState s data) (s.read_index + j) =
        DecodeSlot s (s.read_index + j) := by
    intro j hj
    exact pushed_decode_old s data hg hlen (hok j hj)
      (hnej _ (by omega) (by omega))
  constructor
  · unfold Msgs
    rw [hwidx, hridx]
    have hwr : s.write_index + 1 - s.read_index =
        (s.write_index - s.read_index) + 1 := by omega
    rw [hwr, msgsAux_snoc]
    have he : s.read_index + (s.write_index - s.read_index) =
        s.write_index := by omega
    rw [he, pushed_decode_new s data hg hdata h1.2.1,
      msgsAux_congr s.read_index (s.write_index - s.read_index) hdecs]
  · refine ⟨?_, ?_, ?_⟩
    · rw [hwidx, hridx]; omega
    · rw [hwidx, hridx]
      show s.write_index + 1 - s.read_index < s.capacity
      omega
    · intro j hj
      simp only [hwidx, hridx] at hj ⊢
      rcases Nat.lt_or_ge j (s.write_index - s.read_index) with hj2 | hj2
      · show 0 < ReadSizePfx (PushedState s data).buffer
            (GetSlotPtr (s.read_index + j) s.capacity s.slot_size) ∧
          ReadSizePfx (PushedState s data).buffer
            (GetSlotPtr (s.read_index + j) s.capacity s.slot_size) ≤
            s.max_message_size
        rw [pushed_pfx_old s data hg hlen (hnej _ (by omega) (by omega))]
        exact hok j hj2
      · have hje : s.read_index + j = s.write_index := by omega
        show 0 < ReadSizePfx (PushedState s data).buffer
            (GetSlotPtr (s.read_index + j) s.capacity s.slot_size) ∧
          ReadSizePfx (PushedState s data).buffer
            (GetSlotPtr (s.read_index + j) s.capacity s.slot_size) ≤
            s.max_message_size
        rw [hje, pushed_pfx_new s data hg h1.2.1]
        exact ⟨h1.1, h1.2.1⟩

/-! ### Effect of a successful `TryPop` on the message abstraction -/

/-- The state a successful `TryPop` leaves behind: `read_index` advanced,
one wake emitted, buffer untouched. -/
def PoppedState (s : ChanState) : ChanState :=
  { s with
    read_index := s.read_index + 1
    read_notifies := s.read_notifies + 1 }

theorem popped_step (s : ChanState) {m : List Nat} {rest : List (List Nat)}
    (hg : ValidGeom s) (hinv : Inv s) (hm : Msgs s = m :: rest) :
    TryPop s = (PopResult.Success, some m, PoppedState s) ∧
    Msgs (PoppedState s) = rest ∧ Inv (PoppedState s) := by
  obtain ⟨hle, hlt, hok⟩ := hinv
  have hk := geom_pow2 hg
  have hpos : 0 < s.write_index - s.read_index := by
    have hl := msgs_length s
    rw [hm] at hl
    simp at hl
    omega
  have hnemp : ¬ IsQueueEmpty s.read_index s.write_index s.capacity := by
    rw [isQueueEmpty_iff_mod hk, empty_iff_pending hle hlt]
    omega
  obtain ⟨d, hd⟩ : ∃ d, s.write_index - s.read_index = d + 1 :=
    ⟨s.write_index - s.read_index - 1, by omega⟩
  have hdec : Msgs s =
      DecodeSlot s s.read_index :: MsgsAux s (s.read_index + 1) d := by
    unfold Msgs
    rw [hd]
    rfl
  rw [hdec, List.cons.injEq] at hm
  obtain ⟨hm1, hm2⟩ := hm
  refine ⟨?_, ?_, ?_, ?_, ?_⟩
  · rw [TryPop_success_state s hnemp, hm1]
    rfl
  · show MsgsAux (PoppedState s) (s.read_index + 1)
      (s.write_index - (s.read_index + 1)) = rest
    have he : s.write_index - (s.read_index + 1) = d := by omega
    have hcg := @msgsAux_congr (PoppedState s) s
      (s.read_index + 1) d (fun j hj => rfl)
    rw [he, hcg]
    exact hm2
  · show s.read_index + 1 ≤ s.write_index
    omega
  · show s.write_index - (s.read_index + 1) < s.capacity
    omega
  · intro j hj
    have hj2 : j < s.write_index - (s.read_index + 1) := hj
    show SlotOK s (s.read_index + 1 + j)
    have hs := hok (j + 1) (by omega)
    have he : s.read_index + (j + 1) = s.read_index + 1 + j := by omega
    rw [he] at hs
    exact hs

/-! ### Inversion lemmas for `TryPush` -/

theorem Reserve_none_of_reserved {s : ChanState} {n : Nat}
    (h : s.reserved_slot.isSome) : Reserve s n = none := by
  unfold Reserve
  split_ifs with h1 h2 h3 h4 <;> first | rfl | exact absurd h h2

theorem Reserve_none_of_full {s : ChanState} {n : Nat}
    (h : IsQueueFull s.write_index s.read_index s.capacity) :
    Reserve s n = none := by
  unfold Reserve
  split_ifs with h1 h2 h3 h4 <;> first | rfl | exact absurd h h4

theorem TryPush_invalid (s : ChanState) (data : List Nat)
    (h : ¬ IsValidMessageSize data.length s.max_message_size) :
    TryPush s data = (PushResult.InvalidSize, s) := by
  unfold TryPush
  rw [if_pos h]

theorem TryPush_dead (s : ChanState) (data : List Nat)
    (h1 : IsValidMessageSize data.length s.max_message_size)
    (h : ¬ s.consumer_alive) :
    TryPush s data = (PushResult.ChannelClosed, s) := by
  unfold TryPush
  rw [if_neg (by simpa using h1), if_pos h]

theorem TryPush_reserveFail (s : ChanState) (data : List Nat)
    (h1 : IsValidMessageSize data.length s.max_message_size)
    (h3 : s.consumer_alive = true)
    (hres : Reserve s data.length = none) :
    TryPush s data = (PushResult.QueueFull, s) := by
  unfold TryPush
  rw [if_neg (by simpa using h1), if_neg (by simp [h3]), hres]

theorem TryPush_success_inv {s : ChanState} {data : List Nat}
    {s' : ChanState}
    (h : TryPush s data = (PushResult.Success, s')) :
    IsValidMessageSize data.length s.max_message_size ∧
    s.reserved_slot = none ∧ s.consumer_alive = true ∧
    ¬ IsQueueFull s.write_index s.read_index s.capacity ∧
    s' = PushedState s data := by
  by_cases h1 : IsValidMessageSize data.length s.max_message_size
  · by_cases h3 : s.consumer_alive
    · by_cases h2 : s.reserved_slot = none
      · by_cases h4 : IsQueueFull s.write_index s.read_index s.capacity
        · rw [TryPush_reserveFail s data h1 h3 (Reserve_none_of_full h4)]
            at h
          simp [Prod.ext_iff] at h
        · rw [TryPush_eq_pushed s data h1 h2 h3 h4] at h
          simp only [Prod.mk.injEq] at h
          exact ⟨h1, h2, h3, h4, h.2.symm⟩
      · have hsome : s.reserved_slot.isSome := by
          cases hh : s.reserved_slot with
          | none => exact absurd hh h2
          | some v => rfl
        rw [TryPush_reserveFail s data h1 h3
          (Reserve_none_of_reserved hsome)] at h
        simp [Prod.ext_iff] at h
    · rw [TryPush_dead s data h1 h3] at h
      simp [Prod.ext_iff] at h
  · rw [TryPush_invalid s data h1] at h
    simp [Prod.ext_iff] at h

theorem Commit_writeView_eq_pushed (s : ChanState) (data : List Nat)
    {addr : Nat} {s1 : ChanState}
    (hres : Reserve s data.length = some (addr, s1)) :
    Commit (WriteView s1 addr data) data.length =
      (true, PushedState s data) := by
  obtain ⟨h1, h2, h3, h4, haddr, hs1⟩ := Reserve_eq_some hres
  subst hs1
  subst haddr
  rw [Commit_some _ data.length (by exact h1) (by rfl)]
  have hgp : GetSlotPtr (GetSlotIndex s.write_index s.capacity) s.capacity
      s.slot_size = GetSlotPtr s.write_index s.capacity s.slot_size := by
    unfold GetSlotPtr
    rw [getSlotIndex_getSlotIndex]
  refine congrArg (Prod.mk true) ?_
  show ({ s with
    buffer := WriteSizePfx
      (WriteBytes s.buffer
        (GetSlotPtr s.write_index s.capacity s.slot_size +
          SIZE_PREFIX_BYTES) data)
      (GetSlotPtr (GetSlotIndex s.write_index s.capacity) s.capacity
        s.slot_size) data.length
    write_index := s.write_index + 1
    write_notifies := s.write_notifies + 1
    reserved_slot := none } : ChanState) = PushedState s data
  rw [hgp]
  rfl

/-- C1.  For every channel with valid geometry, in any state satisfying
the queue invariant: a successful `try_push` of `data` (equivalently, a
`reserve(data.length)` whose returned view receives `data` followed by a
successful `commit(data.length)`) appends exactly `data` to the stored
message sequence and preserves the invariant; and whenever the stored
message sequence is `m :: rest`, `try_pop` succeeds, returns a view of
exactly `m` (hence of `m.length` bytes equal to the pushed bytes), and
leaves `rest` stored.  Iterating the pop clause therefore returns the
messages in commit (FIFO) order. -/
theorem C1_push_pop_fifo (s : ChanState) (data : List Nat)
    (hg : ValidGeom s) (hinv : Inv s) (hdata : ∀ b ∈ data, b < 256) :
    (∀ s', TryPush s data = (PushResult.Success, s') →
      Msgs s' = Msgs s ++ [data] ∧ Inv s') ∧
    (∀ addr s1 s3, Reserve s data.length = some (addr, s1) →
      Commit (WriteView s1 addr data) data.length = (true, s3) →
      Msgs s3 = Msgs s ++ [data] ∧ Inv s3) ∧
    (∀ m rest, Msgs s = m :: rest →
      TryPop s = (PopResult.Success, some m, PoppedState s) ∧
      Msgs (PoppedState s) = rest ∧ Inv (PoppedState s)) := by
  refine ⟨?_, ?_, ?_⟩
  · intro s' h
    obtain ⟨h1, h2, h3, h4, hs'⟩ := TryPush_success_inv h
    subst hs'
    exact pushed_msgs s data hg hinv hdata h1 h4
  · intro addr s1 s3 hres hcom
    obtain ⟨h1, h2, h3, h4, haddr, hs1⟩ := Reserve_eq_some hres
    rw [Commit_writeView_eq_pushed s data hres] at hcom
    simp only [Prod.mk.injEq] at hcom
    rw [← hcom.2]
    exact pushed_msgs s data hg hinv hdata h1 h4
  · intro m rest hm
    exact popped_step s hg hinv hm

/-- Witness for C1 at a concrete channel (capacity 16, max message size
256) and the 4-byte message of spec scenario 1. -/
theorem C1_push_pop_fifo_witness :
    (ValidGeom (initChan 16 256) ∧ Inv (initChan 16 256) ∧
      (∀ b ∈ ([222, 173, 190, 239] : List Nat), b < 256)) ∧
    ((∀ s', TryPush (initChan 16 256) [222, 173, 190, 239] =
        (PushResult.Success, s') →
      Msgs s' = Msgs (initChan 16 256) ++ [[222, 173, 190, 239]] ∧ Inv s') ∧
    (∀ addr s1 s3,
      Reserve (initChan 16 256) ([222, 173, 190, 239] : List Nat).length =
        some (addr, s1) →
      Commit (WriteView s1 addr [222, 173, 190, 239])
        ([222, 173, 190, 239] : List Nat).length = (true, s3) →
      Msgs s3 = Msgs (initChan 16 256) ++ [[222, 173, 190, 239]] ∧ Inv s3) ∧
    (∀ m rest, Msgs (initChan 16 256) = m :: rest →
      TryPop (initChan 16 256) =
        (PopResult.Success, some m, PoppedState (initChan 16 256)) ∧
      Msgs (PoppedState (initChan 16 256)) = rest ∧
      Inv (PoppedState (initChan 16 256)))) :=
  ⟨⟨by decide, by decide, by decide⟩,
    C1_push_pop_fifo (initChan 16 256) [222, 173, 190, 239]
      (by decide) (by decide) (by decide)⟩

/-! ### Specification of the `BatchPush` per-message loop -/

/-- The byte-address region of the slot for index `i`. -/
def SlotRegion (cap ss i a : Nat) : Prop :=
  GetSlotPtr i cap ss ≤ a ∧ a < GetSlotPtr i cap ss + ss

instance (cap ss i a : Nat) : Decidable (SlotRegion cap ss i a) := by
  unfold SlotRegion; infer_instance

/-- Writing one message (prefix and payload) into the slot of index `i`
leaves every byte outside that slot's region unchanged. -/
theorem slotWrite_outside {buf : Nat → Nat} {cap ss i a : Nat}
    (m : List Nat) (hm : 4 + m.length ≤ ss)
    (ha : ¬ SlotRegion cap ss i a) :
    WriteBytes (WriteSizePfx buf (GetSlotPtr i cap ss) m.length)
      (GetSlotPtr i cap ss + SIZE_PREFIX_BYTES) m a = buf a := by
  unfold SlotRegion at ha
  push_neg at ha
  have hcase : a < GetSlotPtr i cap ss ∨ GetSlotPtr i cap ss + ss ≤ a := by
    by_cases h : GetSlotPtr i cap ss ≤ a
    · right; exact ha h
    · left; omega
  rw [writeBytes_out (by unfold SIZE_PREFIX_BYTES; omega)]
  exact writeSizePfx_out (by omega)

theorem batchPushLoop_spec (msgs : List (List Nat)) :
    ∀ s : ChanState, (∀ m ∈ msgs, 4 + m.length ≤ s.slot_size) →
      (BatchPushLoop s msgs).2 ≤ msgs.length ∧
      (BatchPushLoop s msgs).1.write_index =
        s.write_index + (BatchPushLoop s msgs).2 ∧
      (BatchPushLoop s msgs).1.read_index = s.read_index ∧
      (BatchPushLoop s msgs).1.capacity = s.capacity ∧
      (BatchPushLoop s msgs).1.max_message_size = s.max_message_size ∧
      (BatchPushLoop s msgs).1.slot_size = s.slot_size ∧
      (BatchPushLoop s msgs).1.reserved_slot = s.reserved_slot ∧
      (BatchPushLoop s msgs).1.producer_alive = s.producer_alive ∧
      (BatchPushLoop s msgs).1.consumer_alive = s.consumer_alive ∧
      (BatchPushLoop s msgs).1.write_notifies = s.write_notifies ∧
      (BatchPushLoop s msgs).1.read_notifies = s.read_notifies ∧
      ((BatchPushLoop s msgs).2 = msgs.length ∨
        IsQueueFull (s.write_index + (BatchPushLoop s msgs).2)
          s.read_index s.capacity) ∧
      (∀ j, j < (BatchPushLoop s msgs).2 →
        ¬ IsQueueFull (s.write_index + j) s.read_index s.capacity) ∧
      (∀ a, (∀ j, j < (BatchPushLoop s msgs).2 →
          ¬ SlotRegion s.capacity s.slot_size (s.write_index + j) a) →
        (BatchPushLoop s msgs).1.buffer a = s.buffer a) := by
  induction msgs with
  | nil =>
    intro s _
    refine ⟨by simp [BatchPushLoop], ?_, ?_, ?_, ?_, ?_, ?_, ?_, ?_, ?_, ?_,
      ?_, ?_, ?_⟩ <;>
      simp [BatchPushLoop]
  | cons m rest ih =>
    intro s hval
    by_cases hf : IsQueueFull s.write_index s.read_index s.capacity
    · have he : BatchPushLoop s (m :: rest) = (s, 0) := by
        show (if IsQueueFull s.write_index s.read_index s.capacity
          then (s, 0) else _) = (s, 0)
        rw [if_pos hf]
      rw [he]
      refine ⟨by simp, by simp, rfl, rfl, rfl, rfl, rfl, rfl, rfl, rfl, rfl,
        ?_, ?_, ?_⟩
      · right; simpa using hf
      · intro j hj; omega
      · intro a _; rfl
    · set s1 : ChanState := { s with
        buffer := WriteBytes
          (WriteSizePfx s.buffer
            (GetSlotPtr s.write_index s.capacity s.slot_size) m.length)
          (GetSlotPtr s.write_index s.capacity s.slot_size +
            SIZE_PREFIX_BYTES) m
        write_index := s.write_index + 1 } with hs1
      have he : BatchPushLoop s (m :: rest) =
          ((BatchPushLoop s1 rest).1, (BatchPushLoop s1 rest).2 + 1) := by
        show (if IsQueueFull s.write_index s.read_index s.capacity
          then (s, 0) else
            (fun p => (p.1, p.2 + 1)) (BatchPushLoop s1 rest)) =
          ((BatchPushLoop s1 rest).1, (BatchPushLoop s1 rest).2 + 1)
        rw [if_neg hf]
      have hval1 : ∀ x ∈ rest, 4 + x.length ≤ s1.slot_size := by
        intro x hx
        exact hval x (List.mem_cons_of_mem m hx)
      obtain ⟨ih1, ih2, ih3, ih4, ih5, ih6, ih7, ih8, ih9, ih10, ih11,
        ih12, ih13, ih14⟩ := ih s1 hval1
      have hw1 : s1.write_index = s.write_index + 1 := rfl
      have hr1 : s1.read_index = s.read_index := rfl
      rw [he]
      refine ⟨by simp; omega, ?_, ?_, ?_, ?_, ?_, ?_, ?_, ?_, ?_, ?_,
        ?_, ?_, ?_⟩
      · show (BatchPushLoop s1 rest).1.write_index =
          s.write_index + ((BatchPushLoop s1 rest).2 + 1)
        rw [ih2, hw1]; omega
      · show (BatchPushLoop s1 rest).1.read_index = s.read_index
        rw [ih3]
      · show (BatchPushLoop s1 rest).1.capacity = s.capacity
        rw [ih4]
      · show (BatchPushLoop s1 rest).1.max_message_size = s.max_message_size
        rw [ih5]
      · show (BatchPushLoop s1 rest).1.slot_size = s.slot_size
        rw [ih6]
      · show (BatchPushLoop s1 rest).1.reserved_slot = s.reserved_slot
        rw [ih7]
      · show (BatchPushLoop s1 rest).1.producer_alive = s.producer_alive
        rw [ih8]
      · show (BatchPushLoop s1 rest).1.consumer_alive = s.consumer_alive
        rw [ih9]
      · show (BatchPushLoop s1 rest).1.write_notifies = s.write_notifies
        rw [ih10]
      · show (BatchPushLoop s1 rest).1.read_notifies = s.read_notifies
        rw [ih11]
      · rcases ih12 with h | h
        · left; simp [h]
        · right
          have hc1 : s1.capacity = s.capacity := rfl
          rw [hw1, hr1, hc1] at h
          have harith : s.write_index + 1 + (BatchPushLoop s1 rest).2 =
              s.write_index + ((BatchPushLoop s1 rest).2 + 1) := by omega
          rw [harith] at h
          exact h
      · intro j hj
        match j with
        | 0 => simpa using hf
        | jj + 1 =>
          have hc1 : s1.capacity = s.capacity := rfl
          have := ih13 jj (by omega)
          rw [hw1, hr1, hc1] at this
          have harith : s.write_index + 1 + jj =
              s.write_index + (jj + 1) := by omega
          rw [harith] at this
          exact this
      · intro a ha
        have ha1 : ∀ j, j < (BatchPushLoop s1 rest).2 →
            ¬ SlotRegion s1.capacity s1.slot_size (s1.write_index + j) a := by
          intro j hj
          have := ha (j + 1) (by omega)
          show ¬ SlotRegion s.capacity s.slot_size (s.write_index + 1 + j) a
          have harith : s.write_index + 1 + j =
              s.write_index + (j + 1) := by omega
          rw [harith]
          exact this
        rw [ih14 a ha1]
        show WriteBytes (WriteSizePfx s.buffer _ _) _ m a = s.buffer a
        exact slotWrite_outside m (hval m (List.mem_cons_self m rest))
          (by simpa using ha 0 (by omega))

/-! ### Specification of the `BatchPop` synchronous drain loop -/

theorem batchPopLoop_spec (k : Nat) :
    ∀ s : ChanState,
      (BatchPopLoop s k).2.length ≤ k ∧
      (BatchPopLoop s k).1.read_index =
        s.read_index + (BatchPopLoop s k).2.length ∧
      (BatchPopLoop s k).1.write_index = s.write_index ∧
      (BatchPopLoop s k).1.capacity = s.capacity ∧
      (BatchPopLoop s k).1.max_message_size = s.max_message_size ∧
      (BatchPopLoop s k).1.slot_size = s.slot_size ∧
      (BatchPopLoop s k).1.reserved_slot = s.reserved_slot ∧
      (BatchPopLoop s k).1.producer_alive = s.producer_alive ∧
      (BatchPopLoop s k).1.consumer_alive = s.consumer_alive ∧
      (BatchPopLoop s k).1.write_notifies = s.write_notifies ∧
      (BatchPopLoop s k).1.read_notifies = s.read_notifies ∧
      (BatchPopLoop s k).1.buffer = s.buffer ∧
      ((BatchPopLoop s k).2.length = k ∨
        IsQueueEmpty (s.read_index + (BatchPopLoop s k).2.length)
          s.write_index s.capacity) ∧
      (∀ j, j < (BatchPopLoop s k).2.length →
        ¬ IsQueueEmpty (s.read_index + j) s.write_index s.capacity) := by
  induction k with
  | zero =>
    intro s
    refine ⟨?_, ?_, ?_, ?_, ?_, ?_, ?_, ?_, ?_, ?_, ?_, ?_, ?_, ?_⟩ <;>
      simp [BatchPopLoop]
  | succ kk ih =>
    intro s
    by_cases he : IsQueueEmpty s.read_index s.write_index s.capacity
    · have heq : BatchPopLoop s (kk + 1) = (s, []) := by
        show (if IsQueueEmpty s.read_index s.write_index s.capacity
          then (s, []) else _) = (s, [])
        rw [if_pos he]
      rw [heq]
      refine ⟨by simp, by simp, rfl, rfl, rfl, rfl, rfl, rfl, rfl, rfl, rfl,
        rfl, ?_, ?_⟩
      · right; simpa using he
      · intro j hj; simp at hj
    · set s1 : ChanState := { s with read_index := s.read_index + 1 }
        with hs1
      have heq : BatchPopLoop s (kk + 1) =
          ((BatchPopLoop s1 kk).1,
            ReadBytes s.buffer
              (GetSlotPtr s.read_index s.capacity s.slot_size +
                SIZE_PREFIX_BYTES)
              (ReadSizePfx s.buffer
                (GetSlotPtr s.read_index s.capacity s.slot_size)) ::
              (BatchPopLoop s1 kk).2) := by
        show (if IsQueueEmpty s.read_index s.write_index s.capacity
          then (s, []) else
            (fun p => (p.1, _ :: p.2)) (BatchPopLoop s1 kk)) = _
        rw [if_neg he]
      obtain ⟨ih1, ih2, ih3, ih4, ih5, ih6, ih7, ih8, ih9, ih10, ih11,
        ih12, ih13, ih14⟩ := ih s1
      have hr1 : s1.read_index = s.read_index + 1 := rfl
      have hw1 : s1.write_index = s.write_index := rfl
      have hc1 : s1.capacity = s.capacity := rfl
      rw [heq]
      refine ⟨by simp; omega, ?_, ?_, ?_, ?_, ?_, ?_, ?_, ?_, ?_, ?_, ?_,
        ?_, ?_⟩
      · show (BatchPopLoop s1 kk).1.read_index = _
        rw [ih2, hr1]
        simp
        omega
      · show (BatchPopLoop s1 kk).1.write_index = s.write_index
        rw [ih3]
      · show (BatchPopLoop s1 kk).1.capacity = s.capacity
        rw [ih4]
      · show (BatchPopLoop s1 kk).1.max_message_size = s.max_message_size
        rw [ih5]
      · show (BatchPopLoop s1 kk).1.slot_size = s.slot_size
        rw [ih6]
      · show (BatchPopLoop s1 kk).1.reserved_slot = s.reserved_slot
        rw [ih7]
      · show (BatchPopLoop s1 kk).1.producer_alive = s.producer_alive
        rw [ih8]
      · show (BatchPopLoop s1 kk).1.consumer_alive = s.consumer_alive
        rw [ih9]
      · show (BatchPopLoop s1 kk).1.write_notifies = s.write_notifies
        rw [ih10]
      · show (BatchPopLoop s1 kk).1.read_notifies = s.read_notifies
        rw [ih11]
      · show (BatchPopLoop s1 kk).1.buffer = s.buffer
        rw [ih12]
      · rcases ih13 with h | h
        · left; simp [h]
        · right
          rw [hr1, hw1, hc1] at h
          have harith : s.read_index + 1 + (BatchPopLoop s1 kk).2.length =
              s.read_index + ((BatchPopLoop s1 kk).2.length + 1) := by omega
          rw [harith] at h
          simpa using h
      · intro j hj
        simp at hj
        match j with
        | 0 => simpa using he
        | jj + 1 =>
          have := ih14 jj (by omega)
          rw [hr1, hw1, hc1] at this
          have harith : s.read_index + 1 + jj =
              s.read_index + (jj + 1) := by omega
          rw [harith] at this
          exact this

/-! ### State-shape lemmas for single operations -/

theorem applyOp_reserve_shape (s : ChanState) (n : Nat) :
    applyOp s (Op.reserve n) = s ∨
    (s.reserved_slot = none ∧
      ¬ IsQueueFull s.write_index s.read_index s.capacity ∧
      applyOp s (Op.reserve n) =
        { s with
          reserved_slot := some (GetSlotIndex s.write_index s.capacity) }) := by
  cases hr : Reserve s n with
  | none =>
    left
    show (match Reserve s n with
      | none => s
      | some (_, s1) => s1) = s
    rw [hr]
  | some p =>
    obtain ⟨addr, s1⟩ := p
    obtain ⟨h1, h2, h3, h4, haddr, hs1⟩ := Reserve_eq_some hr
    right
    refine ⟨h2, h4, ?_⟩
    show (match Reserve s n with
      | none => s
      | some (_, s1) => s1) = _
    rw [hr]
    exact hs1

theorem Commit_shape (s : ChanState) (n : Nat) :
    (Commit s n).2 = s ∨
    (∃ si, s.reserved_slot = some si ∧
      IsValidMessageSize n s.max_message_size ∧
      (Commit s n).2 =
        { s with
          buffer := WriteSizePfx s.buffer
            (GetSlotPtr si s.capacity s.slot_size) n
          write_index := s.write_index + 1
          write_notifies := s.write_notifies + 1
          reserved_slot := none }) := by
  by_cases h1 : IsValidMessageSize n s.max_message_size
  · cases hres : s.reserved_slot with
    | none =>
      left
      unfold Commit
      rw [if_neg (by simpa using h1), hres]
    | some si =>
      right
      refine ⟨si, rfl, h1, ?_⟩
      rw [Commit_some s n h1 hres]
  · left
    unfold Commit
    rw [if_pos h1]

theorem TryPush_shape (s : ChanState) (data : List Nat) :
    (TryPush s data).2 = s ∨
    (IsValidMessageSize data.length s.max_message_size ∧
      s.reserved_slot = none ∧
      ¬ IsQueueFull s.write_index s.read_index s.capacity ∧
      (TryPush s data).2 = PushedState s data) := by
  by_cases h1 : IsValidMessageSize data.length s.max_message_size
  · by_cases h3 : s.consumer_alive
    · by_cases h2 : s.reserved_slot = none
      · by_cases h4 : IsQueueFull s.write_index s.read_index s.capacity
        · left
          rw [TryPush_reserveFail s data h1 h3 (Reserve_none_of_full h4)]
        · right
          refine ⟨h1, h2, h4, ?_⟩
          rw [TryPush_eq_pushed s data h1 h2 h3 h4]
      · left
        have hsome : s.reserved_slot.isSome := by
          cases hh : s.reserved_slot with
          | none => exact absurd hh h2
          | some v => rfl
        rw [TryPush_reserveFail s data h1 h3 (Reserve_none_of_reserved hsome)]
    · left
      rw [TryPush_dead s data h1 h3]
  · left
    rw [TryPush_invalid s data h1]

theorem TryPop_shape (s : ChanState) :
    (TryPop s).2.2 = s ∨
    (¬ IsQueueEmpty s.read_index s.write_index s.capacity ∧
      (TryPop s).2.2 = PoppedState s) := by
  by_cases he : IsQueueEmpty s.read_index s.write_index s.capacity
  · left
    rw [TryPop_empty_state s he]
  · right
    refine ⟨he, ?_⟩
    rw [TryPop_success_state s he]
    rfl

theorem BlockingPop_shape (s : ChanState) :
    (BlockingPop s).2.2 = s ∨
    (¬ IsQueueEmpty s.read_index s.write_index s.capacity ∧
      BlockingPop s = (PopResult.Success, some (DecodeSlot s s.read_index),
        PoppedState s)) := by
  by_cases he : IsQueueEmpty s.read_index s.write_index s.capacity
  · left
    unfold BlockingPop
    rw [TryPop_empty_state s he]
    by_cases hp : s.producer_alive
    · rw [if_pos hp]
    · rw [if_neg hp]
  · right
    refine ⟨he, ?_⟩
    unfold BlockingPop
    rw [TryPop_success_state s he]
    rfl

theorem BatchPush_shape (s : ChanState) (messages : List (List Nat)) :
    (BatchPush s messages).1 = s ∨
    ((∀ m ∈ messages, IsValidMessageSize m.length s.max_message_size) ∧
      ((BatchPush s messages).1 = (BatchPushLoop s messages).1 ∨
      (BatchPush s messages).1 =
        { (BatchPushLoop s messages).1 with
          write_notifies :=
            (BatchPushLoop s messages).1.write_notifies + 1 })) := by
  unfold BatchPush
  split_ifs with h1 h2 h3
  all_goals try (left; rfl)
  right
  refine ⟨h2, ?_⟩
  rcases hbp : BatchPushLoop s messages with ⟨s1, p⟩
  by_cases h4 : 0 < p
  · right
    show (if 0 < p then
        ({ s1 with write_notifies := s1.write_notifies + 1 }, p)
      else (s1, p)).1 = _
    rw [if_pos h4]
  · left
    show (if 0 < p then
        ({ s1 with write_notifies := s1.write_notifies + 1 }, p)
      else (s1, p)).1 = _
    rw [if_neg h4]

/-- The per-message loop never overfills: starting with at most
`capacity − 1` pending messages, it stops before exceeding that bound. -/
theorem batchPushLoop_pending (msgs : List (List Nat)) (s : ChanState)
    (hk : s.capacity = 2 ^ Nat.log2 s.capacity) (hcap : 0 < s.capacity)
    (hval : ∀ m ∈ msgs, 4 + m.length ≤ s.slot_size)
    (hle : s.read_index ≤ s.write_index)
    (hpend : s.write_index - s.read_index + 1 ≤ s.capacity) :
    s.write_index + (BatchPushLoop s msgs).2 - s.read_index + 1 ≤
      s.capacity := by
  obtain ⟨_, _, _, _, _, _, _, _, _, _, _, _, hguard, _⟩ :=
    batchPushLoop_spec msgs s hval
  by_contra hover
  have hj : s.capacity - 1 - (s.write_index - s.read_index) <
      (BatchPushLoop s msgs).2 := by omega
  have hg := hguard _ hj
  apply hg
  rw [isQueueFull_iff_mod hk]
  apply (full_iff_pending hcap (by omega) (by omega)).mpr
  omega

/-- The drain loop never pops past `write_index`. -/
theorem batchPopLoop_read_le (k : Nat) (s : ChanState)
    (hle : s.read_index ≤ s.write_index) :
    s.read_index + (BatchPopLoop s k).2.length ≤ s.write_index := by
  obtain ⟨_, _, _, _, _, _, _, _, _, _, _, _, _, hguard⟩ :=
    batchPopLoop_spec k s
  by_contra hover
  have hj : s.write_index - s.read_index < (BatchPopLoop s k).2.length := by
    omega
  have hg := hguard _ hj
  apply hg
  show IsQueueEmpty (s.read_index + (s.write_index - s.read_index))
    s.write_index s.capacity
  have he : s.read_index + (s.write_index - s.read_index) =
      s.write_index := by omega
  rw [he]
  rfl

/-! ### Field bounds for a whole `BatchPop` call -/

theorem BatchPop_fields (s : ChanState) (k : Nat) (tp : Bool)
    (hle : s.read_index ≤ s.write_index) :
    (BatchPop s k tp).2.2.capacity = s.capacity ∧
    (BatchPop s k tp).2.2.max_message_size = s.max_message_size ∧
    (BatchPop s k tp).2.2.slot_size = s.slot_size ∧
    (BatchPop s k tp).2.2.write_index = s.write_index ∧
    (BatchPop s k tp).2.2.reserved_slot = s.reserved_slot ∧
    (BatchPop s k tp).2.2.producer_alive = s.producer_alive ∧
    (BatchPop s k tp).2.2.consumer_alive = s.consumer_alive ∧
    (BatchPop s k tp).2.2.buffer = s.buffer ∧
    (BatchPop s k tp).2.2.write_notifies = s.write_notifies ∧
    s.read_index ≤ (BatchPop s k tp).2.2.read_index ∧
    (BatchPop s k tp).2.2.read_index ≤ s.write_index := by
  by_cases hk0 : k = 0
  · subst hk0
    have heq : BatchPop s 0 tp = (PopResult.Empty, [], s) := by
      unfold BatchPop
      rw [if_pos rfl]
    rw [heq]
    exact ⟨rfl, rfl, rfl, rfl, rfl, rfl, rfl, rfl, rfl, Nat.le_refl _, hle⟩
  · cases tp with
    | false =>
      obtain ⟨l1, l2, l3, l4, l5, l6, l7, l8, l9, l10, l11, l12, l13, l14⟩ :=
        batchPopLoop_spec k s
      have hrle := batchPopLoop_read_le k s hle
      have heq : (BatchPop s k false).2.2 =
          (if (BatchPopLoop s k).2.isEmpty then (BatchPopLoop s k).1
           else { (BatchPopLoop s k).1 with
             read_notifies := (BatchPopLoop s k).1.read_notifies + 1 }) := by
        unfold BatchPop
        rw [if_neg hk0, if_neg (show ¬ ((false : Bool) = true) by simp)]
        rcases hbp : BatchPopLoop s k with ⟨s2, msgs⟩
        show (if msgs.isEmpty = true then
            (if ¬ s.producer_alive = true
              then (PopResult.ChannelClosed, ([] : List (List Nat)), s2)
              else (PopResult.Empty, [], s2))
          else (PopResult.Success, msgs,
            { s2 with read_notifies := s2.read_notifies + 1 })).2.2 =
          if msgs.isEmpty then s2
          else { s2 with read_notifies := s2.read_notifies + 1 }
        by_cases hm : msgs.isEmpty
        · rw [if_pos hm, if_pos hm]
          by_cases hp : s.producer_alive
          · rw [if_neg (by simp [hp])]
          · rw [if_pos (by simpa using hp)]
        · rw [if_neg hm, if_neg hm]
      rw [heq]
      by_cases hm : (BatchPopLoop s k).2.isEmpty
      · rw [if_pos hm]
        refine ⟨l4, l5, l6, l3, l7, l8, l9, l12, l10, ?_, ?_⟩
        · show s.read_index ≤ (BatchPopLoop s k).1.read_index
          omega
        · show (BatchPopLoop s k).1.read_index ≤ s.write_index
          omega
      · rw [if_neg hm]
        refine ⟨l4, l5, l6, l3, l7, l8, l9, l12, l10, ?_, ?_⟩
        · show s.read_index ≤ (BatchPopLoop s k).1.read_index
          omega
        · show (BatchPopLoop s k).1.read_index ≤ s.write_index
          omega
    | true =>
      rcases hbb : BlockingPop s with ⟨r1, m1, sA⟩
      have heq : (BatchPop s k true).2.2 =
          (match (r1, m1, sA) with
            | (PopResult.Success, some m, s1) =>
              (PopResult.Success,
                m :: (BatchPopLoop s1 (k - 1)).2,
                { (BatchPopLoop s1 (k - 1)).1 with
                  read_notifies :=
                    (BatchPopLoop s1 (k - 1)).1.read_notifies + 1 })
            | (r, _, s1) => (r, [], s1)).2.2 := by
        unfold BatchPop
        rw [if_neg hk0, if_pos (show (true : Bool) = true from rfl), hbb]
      rcases BlockingPop_shape s with hbs | ⟨hne, hbs⟩
      · rw [hbb] at hbs
        have hsA : sA = s := hbs
        rw [hsA] at heq
        rw [heq]
        cases r1 with
        | Success =>
          cases m1 with
          | none =>
            exact ⟨rfl, rfl, rfl, rfl, rfl, rfl, rfl, rfl, rfl,
              Nat.le_refl _, hle⟩
          | some m =>
            obtain ⟨l1, l2, l3, l4, l5, l6, l7, l8, l9, l10, l11, l12,
              l13, l14⟩ := batchPopLoop_spec (k - 1) s
            have hrle := batchPopLoop_read_le (k - 1) s hle
            refine ⟨l4, l5, l6, l3, l7, l8, l9, l12, l10, ?_, ?_⟩
            · show s.read_index ≤ (BatchPopLoop s (k - 1)).1.read_index
              omega
            · show (BatchPopLoop s (k - 1)).1.read_index ≤ s.write_index
              omega
        | Timeout =>
          exact ⟨rfl, rfl, rfl, rfl, rfl, rfl, rfl, rfl, rfl,
            Nat.le_refl _, hle⟩
        | ChannelClosed =>
          exact ⟨rfl, rfl, rfl, rfl, rfl, rfl, rfl, rfl, rfl,
            Nat.le_refl _, hle⟩
        | Empty =>
          exact ⟨rfl, rfl, rfl, rfl, rfl, rfl, rfl, rfl, rfl,
            Nat.le_refl _, hle⟩
      · rw [hbb] at hbs
        have hr1 : r1 = PopResult.Success := (Prod.mk.injEq _ _ _ _ ▸ hbs).1
        have hrest := (Prod.mk.injEq _ _ _ _ ▸ hbs).2
        have hm1 : m1 = some (DecodeSlot s s.read_index) :=
          (Prod.mk.injEq _ _ _ _ ▸ hrest).1
        have hsA : sA = PoppedState s :=
          (Prod.mk.injEq _ _ _ _ ▸ hrest).2
        subst hsA
        subst hr1
        subst hm1
        rw [heq]
        obtain ⟨l1, l2, l3, l4, l5, l6, l7, l8, l9, l10, l11, l12, l13,
          l14⟩ := batchPopLoop_spec (k - 1) (PoppedState s)
        have hrlt : s.read_index < s.write_index := by
          by_contra hc
          have hrw : s.read_index = s.write_index := by omega
          apply hne
          show s.read_index &&& (s.capacity - 1) =
            s.write_index &&& (s.capacity - 1)
          rw [hrw]
        have hple : (PoppedState s).read_index ≤
            (PoppedState s).write_index := by
          show s.read_index + 1 ≤ s.write_index
          omega
        have hrle := batchPopLoop_read_le (k - 1) (PoppedState s) hple
        have hp1 : (PoppedState s).read_index = s.read_index + 1 := rfl
        have hp2 : (PoppedState s).write_index = s.write_index := rfl
        rw [hp1, hp2] at hrle
        refine ⟨l4, l5, l6, ?_, l7, l8, l9, l12, l10, ?_, ?_⟩
        · show (BatchPopLoop (PoppedState s) (k - 1)).1.write_index =
            s.write_index
          rw [l3]
          rfl
        · show s.read_index ≤
            (BatchPopLoop (PoppedState s) (k - 1)).1.read_index
          rw [l2, hp1]
          omega
        · show (BatchPopLoop (PoppedState s) (k - 1)).1.read_index ≤
            s.write_index
          rw [l2, hp1]
          omega
/-! ### The index invariant (spec I2), its per-operation preservation,
and claim C2 -/

/-- Index discipline: `read ≤ write`; at most `capacity − 1` messages are
pending, and one more headroom slot exists while a reservation is
outstanding (a commit is still to come). -/
def IdxInv (s : ChanState) : Prop :=
  s.read_index ≤ s.write_index ∧
  (match s.reserved_slot with
   | none => s.write_index - s.read_index + 1 ≤ s.capacity
   | some _ => s.write_index - s.read_index + 2 ≤ s.capacity)

instance (s : ChanState) : Decidable (IdxInv s) := by
  unfold IdxInv
  cases s.reserved_slot <;> infer_instance

theorem idxInv_bound {s : ChanState} (h : IdxInv s) :
    s.read_index ≤ s.write_index ∧
    s.write_index - s.read_index + 1 ≤ s.capacity := by
  obtain ⟨h1, h2⟩ := h
  cases hres : s.reserved_slot <;> rw [hres] at h2 <;> exact ⟨h1, by omega⟩

/-- A `batch_push` issued while a reservation is outstanding is the one
interaction that breaks the invariant; a run is safe when that never
happens. -/
def OpNeedsNoRes : Op → Bool
  | Op.batchPush _ => true
  | _ => false

def SafeRun : ChanState → List Op → Prop
  | _, [] => True
  | s, op :: rest =>
    (OpNeedsNoRes op = true → s.reserved_slot = none) ∧
    SafeRun (applyOp s op) rest

def decSafeRun : (ops : List Op) → (s : ChanState) →
    Decidable (SafeRun s ops)
  | [], _ => isTrue trivial
  | op :: rest, s =>
    @instDecidableAnd _ _ inferInstance (decSafeRun rest (applyOp s op))

instance (s : ChanState) (ops : List Op) : Decidable (SafeRun s ops) :=
  decSafeRun ops s

theorem step_preserves (s : ChanState) (op : Op) (hg : ValidGeom s)
    (hinv : IdxInv s)
    (hsafe : OpNeedsNoRes op = true → s.reserved_slot = none) :
    ValidGeom (applyOp s op) ∧ IdxInv (applyOp s op) := by
  have hk := geom_pow2 hg
  have hcap := geom_cap_pos hg
  obtain ⟨hle, hpend1⟩ := idxInv_bound hinv
  cases op with
  | reserve n =>
    rcases applyOp_reserve_shape s n with h | ⟨h2, h4, h⟩
    · rw [h]; exact ⟨hg, hinv⟩
    · rw [h]
      have hnfull : s.write_index - s.read_index ≠ s.capacity - 1 := by
        intro heq
        exact h4 ((isQueueFull_iff_mod hk).mpr
          ((full_iff_pending hcap hle (by omega)).mpr heq))
      refine ⟨hg, hle, ?_⟩
      show s.write_index - s.read_index + 2 ≤ s.capacity
      omega
  | commit n =>
    rcases Commit_shape s n with h | ⟨si, hres, hval, h⟩
    · show ValidGeom (Commit s n).2 ∧ IdxInv (Commit s n).2
      rw [h]; exact ⟨hg, hinv⟩
    · show ValidGeom (Commit s n).2 ∧ IdxInv (Commit s n).2
      rw [h]
      obtain ⟨hi1, hi2⟩ := hinv
      rw [hres] at hi2
      refine ⟨hg, ?_, ?_⟩
      · show s.read_index ≤ s.write_index + 1
        omega
      · show s.write_index + 1 - s.read_index + 1 ≤ s.capacity
        omega
  | rollback =>
    show ValidGeom (Rollback s) ∧ IdxInv (Rollback s)
    refine ⟨hg, hle, ?_⟩
    show s.write_index - s.read_index + 1 ≤ s.capacity
    omega
  | writeView addr data =>
    show ValidGeom (WriteView s addr data) ∧ IdxInv (WriteView s addr data)
    refine ⟨hg, hle, ?_⟩
    show (match s.reserved_slot with
      | none => s.write_index - s.read_index + 1 ≤ s.capacity
      | some _ => s.write_index - s.read_index + 2 ≤ s.capacity)
    exact hinv.2
  | tryPush data =>
    rcases TryPush_shape s data with h | ⟨h1, h2, h4, h⟩
    · show ValidGeom (TryPush s data).2 ∧ IdxInv (TryPush s data).2
      rw [h]; exact ⟨hg, hinv⟩
    · show ValidGeom (TryPush s data).2 ∧ IdxInv (TryPush s data).2
      rw [h]
      have hnfull : s.write_index - s.read_index ≠ s.capacity - 1 := by
        intro heq
        exact h4 ((isQueueFull_iff_mod hk).mpr
          ((full_iff_pending hcap hle (by omega)).mpr heq))
      refine ⟨hg, ?_, ?_⟩
      · show s.read_index ≤ s.write_index + 1
        omega
      · show s.write_index + 1 - s.read_index + 1 ≤ s.capacity
        omega
  | batchPush msgs =>
    have hres : s.reserved_slot = none := hsafe rfl
    rcases BatchPush_shape s msgs with h | ⟨hval, h | h⟩
    · show ValidGeom (BatchPush s msgs).1 ∧ IdxInv (BatchPush s msgs).1
      rw [h]; exact ⟨hg, hinv⟩
    all_goals {
      show ValidGeom (BatchPush s msgs).1 ∧ IdxInv (BatchPush s msgs).1
      rw [h]
      have hval2 : ∀ m ∈ msgs, 4 + m.length ≤ s.slot_size := by
        intro m hm
        have := (hval m hm).2.1
        have := geom_slot_size hg
        omega
      obtain ⟨l1, l2, l3, l4, l5, l6, l7, l8, l9, l10, l11, l12, l13,
        l14⟩ := batchPushLoop_spec msgs s hval2
      have hpb := batchPushLoop_pending msgs s hk hcap hval2 hle hpend1
      refine ⟨?_, ?_, ?_⟩
      · show ValidGeom (BatchPushLoop s msgs).1
        unfold ValidGeom
        rw [l4, l5, l6]
        exact hg
      · show (BatchPushLoop s msgs).1.read_index ≤
          (BatchPushLoop s msgs).1.write_index
        rw [l2, l3]
        omega
      · show (match (BatchPushLoop s msgs).1.reserved_slot with
          | none => (BatchPushLoop s msgs).1.write_index -
              (BatchPushLoop s msgs).1.read_index + 1 ≤
              (BatchPushLoop s msgs).1.capacity
          | some _ => (BatchPushLoop s msgs).1.write_index -
              (BatchPushLoop s msgs).1.read_index + 2 ≤
              (BatchPushLoop s msgs).1.capacity)
        rw [l2, l3, l4, l7, hres]
        omega
    }
  | tryPop =>
    rcases TryPop_shape s with h | ⟨hne, h⟩
    · show ValidGeom (TryPop s).2.2 ∧ IdxInv (TryPop s).2.2
      rw [h]; exact ⟨hg, hinv⟩
    · show ValidGeom (TryPop s).2.2 ∧ IdxInv (TryPop s).2.2
      rw [h]
      have hlt : s.read_index < s.write_index := by
        by_contra hc
        have heq : s.read_index = s.write_index := by omega
        apply hne
        show s.read_index &&& (s.capacity - 1) =
          s.write_index &&& (s.capacity - 1)
        rw [heq]
      refine ⟨hg, by show s.read_index + 1 ≤ s.write_index; omega, ?_⟩
      show (match s.reserved_slot with
        | none => s.write_index - (s.read_index + 1) + 1 ≤ s.capacity
        | some _ => s.write_index - (s.read_index + 1) + 2 ≤ s.capacity)
      have := hinv.2
      cases hres : s.reserved_slot <;> rw [hres] at this <;> omega
  | batchPop k tp =>
    obtain ⟨f1, f2, f3, f4, f5, f6, f7, f8, f9, f10, f11⟩ :=
      BatchPop_fields s k tp hle
    refine ⟨?_, ?_, ?_⟩
    · show ValidGeom (BatchPop s k tp).2.2
      unfold ValidGeom
      rw [f1, f2, f3]
      exact hg
    · show (BatchPop s k tp).2.2.read_index ≤
        (BatchPop s k tp).2.2.write_index
      rw [f4]
      omega
    · show (match (BatchPop s k tp).2.2.reserved_slot with
        | none => (BatchPop s k tp).2.2.write_index -
            (BatchPop s k tp).2.2.read_index + 1 ≤
            (BatchPop s k tp).2.2.capacity
        | some _ => (BatchPop s k tp).2.2.write_index -
            (BatchPop s k tp).2.2.read_index + 2 ≤
            (BatchPop s k tp).2.2.capacity)
      rw [f1, f4, f5]
      have := hinv.2
      cases hres : s.reserved_slot <;> rw [hres] at this <;> omega

theorem runOps_preserves (ops : List Op) :
    ∀ s : ChanState, ValidGeom s → IdxInv s → SafeRun s ops →
      ValidGeom (RunOps s ops) ∧ IdxInv (RunOps s ops) := by
  induction ops with
  | nil => intro s hg hinv _; exact ⟨hg, hinv⟩
  | cons op rest ih =>
    intro s hg hinv hsafe
    obtain ⟨hs1, hs2⟩ := hsafe
    obtain ⟨hg', hinv'⟩ := step_preserves s op hg hinv hs1
    exact ih (applyOp s op) hg' hinv' hs2

/-- The operation sequence that breaks invariant I2: reserve, fill the
queue with `batch_push` (which performs no reservation check), then
commit the old reservation. -/
def C2ops : List Op :=
  [Op.reserve 1, Op.batchPush (List.replicate 7 [0]), Op.commit 1]

/-- C2 is false as stated: on a capacity-8 channel, after the operation
sequence `reserve(1); batch_push(7 one-byte messages); commit(1)` from
the empty queue, `write_index − read_index` is 8 = capacity, outside
`[0, capacity − 1]`. -/
theorem C2_counterexample :
    (RunOps (initChan 8 64) C2ops).write_index -
        (RunOps (initChan 8 64) C2ops).read_index = 8 ∧
    ¬ ((RunOps (initChan 8 64) C2ops).write_index -
        (RunOps (initChan 8 64) C2ops).read_index < 8) := by
  decide

/-- C2 (amended).  For every channel with valid geometry and every finite
sequence of endpoint operations starting from the empty queue in which
`batch_push` is never invoked while a reservation is outstanding, after
every operation `write_index − read_index` lies in `[0, capacity − 1]`,
and the stored-message count the code computes (`AvailableMessages`)
equals `write_index − read_index`. -/
theorem C2_index_range (cap mms : Nat) (ops : List Op)
    (hg : ValidGeom (initChan cap mms))
    (hsafe : SafeRun (initChan cap mms) ops) :
    (RunOps (initChan cap mms) ops).read_index ≤
      (RunOps (initChan cap mms) ops).write_index ∧
    (RunOps (initChan cap mms) ops).write_index -
      (RunOps (initChan cap mms) ops).read_index ≤ cap - 1 ∧
    AvailableMessages (RunOps (initChan cap mms) ops).read_index
        (RunOps (initChan cap mms) ops).write_index cap =
      (RunOps (initChan cap mms) ops).write_index -
        (RunOps (initChan cap mms) ops).read_index := by
  have hinv0 : IdxInv (initChan cap mms) := by
    refine ⟨Nat.le_refl _, ?_⟩
    show 0 - 0 + 1 ≤ cap
    have h8 : 8 ≤ cap := hg.1
    omega
  obtain ⟨hgF, hinvF⟩ := runOps_preserves ops (initChan cap mms) hg hinv0 hsafe
  obtain ⟨hle, hpend⟩ := idxInv_bound hinvF
  have hcapF : (RunOps (initChan cap mms) ops).capacity = cap := by
    have base : (initChan cap mms).capacity = cap := rfl
    have hmono : ∀ (l : List Op) (s : ChanState),
        ValidGeom s → IdxInv s → SafeRun s l →
        (RunOps s l).capacity = s.capacity := by
      intro l
      induction l with
      | nil => intro s _ _ _; rfl
      | cons op rest ih =>
        intro s hgs his hss
        obtain ⟨hs1, hs2⟩ := hss
        obtain ⟨hg', hi'⟩ := step_preserves s op hgs his hs1
        have hstep : (applyOp s op).capacity = s.capacity := by
          cases op with
          | reserve n =>
            rcases applyOp_reserve_shape s n with h | ⟨_, _, h⟩ <;> rw [h]
          | commit n =>
            rcases Commit_shape s n with h | ⟨si, _, _, h⟩ <;>
              show (Commit s n).2.capacity = s.capacity <;> rw [h]
          | rollback => rfl
          | writeView addr data => rfl
          | tryPush data =>
            rcases TryPush_shape s data with h | ⟨_, _, _, h⟩ <;>
              show (TryPush s data).2.capacity = s.capacity <;> rw [h] <;>
              rfl
          | batchPush msgs =>
            rcases BatchPush_shape s msgs with h | ⟨hval, h | h⟩ <;>
              show (BatchPush s msgs).1.capacity = s.capacity <;> rw [h] <;>
              exact (batchPushLoop_spec msgs s (by
                intro m hm
                have := (hval m hm).2.1
                have := geom_slot_size hgs
                omega)).2.2.2.1
          | tryPop =>
            rcases TryPop_shape s with h | ⟨_, h⟩ <;>
              show (TryPop s).2.2.capacity = s.capacity <;> rw [h] <;> rfl
          | batchPop k tp =>
            exact (BatchPop_fields s k tp (idxInv_bound his).1).1
        show (RunOps (applyOp s op) rest).capacity = s.capacity
        rw [ih (applyOp s op) hg' hi' hs2, hstep]
    rw [hmono ops (initChan cap mms) hg hinv0 hsafe]
    exact base
  rw [hcapF] at hpend
  have hkF := geom_pow2 hgF
  rw [hcapF] at hkF
  refine ⟨hle, by omega, ?_⟩
  unfold AvailableMessages
  rw [and_mask_eq_mod _ hkF]
  exact Nat.mod_eq_of_lt (by omega)

/-- Witness for C2 (amended) on a concrete safe run: push, pop,
reserve/commit, and a batch push on a capacity-8 channel. -/
theorem C2_index_range_witness :
    (ValidGeom (initChan 8 64) ∧
      SafeRun (initChan 8 64)
        [Op.tryPush [1], Op.tryPop, Op.reserve 1, Op.commit 1,
          Op.batchPush [[2], [3]]]) ∧
    ((RunOps (initChan 8 64)
        [Op.tryPush [1], Op.tryPop, Op.reserve 1, Op.commit 1,
          Op.batchPush [[2], [3]]]).read_index ≤
      (RunOps (initChan 8 64)
        [Op.tryPush [1], Op.tryPop, Op.reserve 1, Op.commit 1,
          Op.batchPush [[2], [3]]]).write_index ∧
    (RunOps (initChan 8 64)
        [Op.tryPush [1], Op.tryPop, Op.reserve 1, Op.commit 1,
          Op.batchPush [[2], [3]]]).write_index -
      (RunOps (initChan 8 64)
        [Op.tryPush [1], Op.tryPop, Op.reserve 1, Op.commit 1,
          Op.batchPush [[2], [3]]]).read_index ≤ 8 - 1 ∧
    AvailableMessages (RunOps (initChan 8 64)
        [Op.tryPush [1], Op.tryPop, Op.reserve 1, Op.commit 1,
          Op.batchPush [[2], [3]]]).read_index
        (RunOps (initChan 8 64)
          [Op.tryPush [1], Op.tryPop, Op.reserve 1, Op.commit 1,
            Op.batchPush [[2], [3]]]).write_index 8 =
      (RunOps (initChan 8 64)
          [Op.tryPush [1], Op.tryPop, Op.reserve 1, Op.commit 1,
            Op.batchPush [[2], [3]]]).write_index -
        (RunOps (initChan 8 64)
          [Op.tryPush [1], Op.tryPop, Op.reserve 1, Op.commit 1,
            Op.batchPush [[2], [3]]]).read_index) :=
  ⟨⟨by decide, by decide⟩,
    C2_index_range 8 64
      [Op.tryPush [1], Op.tryPop, Op.reserve 1, Op.commit 1,
        Op.batchPush [[2], [3]]] (by decide) (by decide)⟩

/-! ### Claim C3: stability of the last returned consumer view under
producer operations -/

/-- The producer endpoint's API operations (`reserve`, `commit`,
`rollback`, `try_push`, `batch_push`; `blocking_push` is `try_push`
retried through the same reserve/copy/commit path).  `writeView` — the
client's copy through a previously returned reservation view — and the
consumer's pops are not producer endpoint calls. -/
def Op.isProducerApi : Op → Bool
  | Op.reserve _ => true
  | Op.commit _ => true
  | Op.rollback => true
  | Op.tryPush _ => true
  | Op.batchPush _ => true
  | _ => false

/-- The slot the producer is about to write (checked not-full against
`read`) is never the slot of the message popped last (`read − 1`). -/
theorem notfull_ne_lastslot {w r cap : Nat}
    (hk : cap = 2 ^ Nat.log2 cap) (hr : 1 ≤ r)
    (hnf : ¬ IsQueueFull w r cap) :
    GetSlotIndex w cap ≠ GetSlotIndex (r - 1) cap := by
  rw [getSlotIndex_eq_mod _ hk, getSlotIndex_eq_mod _ hk]
  intro heq
  apply hnf
  rw [isQueueFull_iff_mod hk]
  have h1 : (w + 1) % cap = ((r - 1) + 1) % cap := by
    exact Nat.ModEq.add_right 1 heq
  rw [h1]
  congr 1
  omega

/-- An address inside a slot's region belongs to exactly one slot. -/
theorem slotRegion_unique {cap ss u i off : Nat} (hoff : off < ss)
    (hreg : SlotRegion cap ss u (GetSlotPtr i cap ss + off)) :
    GetSlotIndex u cap = GetSlotIndex i cap := by
  by_contra hne
  unfold SlotRegion GetSlotPtr at hreg
  obtain ⟨hlo, hhi⟩ := hreg
  rcases Nat.lt_or_ge (GetSlotIndex u cap) (GetSlotIndex i cap) with h | h
  · have hm : (GetSlotIndex u cap + 1) * ss ≤ GetSlotIndex i cap * ss :=
      Nat.mul_le_mul_right ss h
    have : (GetSlotIndex u cap + 1) * ss =
        GetSlotIndex u cap * ss + ss := by ring
    omega
  · have hgt : GetSlotIndex i cap < GetSlotIndex u cap := by omega
    have hm : (GetSlotIndex i cap + 1) * ss ≤ GetSlotIndex u cap * ss :=
      Nat.mul_le_mul_right ss hgt
    have : (GetSlotIndex i cap + 1) * ss =
        GetSlotIndex i cap * ss + ss := by ring
    omega

/-- One producer API operation leaves the geometry, `read_index`, and
every payload byte of the last-popped slot unchanged. -/
theorem producerOp_step (s : ChanState) (op : Op)
    (hop : Op.isProducerApi op = true) (hg : ValidGeom s)
    (hr : 1 ≤ s.read_index) :
    (applyOp s op).read_index = s.read_index ∧
    (applyOp s op).capacity = s.capacity ∧
    (applyOp s op).max_message_size = s.max_message_size ∧
    (applyOp s op).slot_size = s.slot_size ∧
    ∀ off, 4 ≤ off → off < s.slot_size →
      (applyOp s op).buffer
        (GetSlotPtr (s.read_index - 1) s.capacity s.slot_size + off) =
      s.buffer
        (GetSlotPtr (s.read_index - 1) s.capacity s.slot_size + off) := by
  have hk := geom_pow2 hg
  have hss4 : 4 ≤ s.slot_size := by
    have := geom_slot_size hg
    have := hg.2.2.2.1
    omega
  cases op with
  | reserve n =>
    rcases applyOp_reserve_shape s n with h | ⟨_, _, h⟩ <;> rw [h] <;>
      exact ⟨rfl, rfl, rfl, rfl, fun off _ _ => rfl⟩
  | commit n =>
    have happ : applyOp s (Op.commit n) = (Commit s n).2 := rfl
    rcases Commit_shape s n with h | ⟨si, hres, hval, h⟩
    · rw [happ, h]
      exact ⟨rfl, rfl, rfl, rfl, fun off _ _ => rfl⟩
    · rw [happ, h]
      refine ⟨rfl, rfl, rfl, rfl, ?_⟩
      intro off h4 hoff
      show WriteSizePfx s.buffer (GetSlotPtr si s.capacity s.slot_size) n
        (GetSlotPtr (s.read_index - 1) s.capacity s.slot_size + off) = _
      by_cases hi : GetSlotIndex si s.capacity =
          GetSlotIndex (s.read_index - 1) s.capacity
      · apply writeSizePfx_out
        right
        show GetSlotPtr si s.capacity s.slot_size + 4 ≤ _
        unfold GetSlotPtr
        rw [hi]
        omega
      · exact writeSizePfx_other_slot hss4 hoff hi
  | rollback =>
    exact ⟨rfl, rfl, rfl, rfl, fun off _ _ => rfl⟩
  | writeView addr data => simp [Op.isProducerApi] at hop
  | tryPush data =>
    have happ : applyOp s (Op.tryPush data) = (TryPush s data).2 := rfl
    rcases TryPush_shape s data with h | ⟨h1, h2, h4, h⟩
    · rw [happ, h]
      exact ⟨rfl, rfl, rfl, rfl, fun off _ _ => rfl⟩
    · rw [happ, h]
      refine ⟨rfl, rfl, rfl, rfl, ?_⟩
      intro off ho4 hoff
      have hlen : 4 + data.length ≤ s.slot_size := by
        have := h1.2.1
        have := geom_slot_size hg
        omega
      exact pushed_buffer_other_slot s data hss4 hlen hoff
        (notfull_ne_lastslot hk hr h4)
  | batchPush msgs =>
    have happ : applyOp s (Op.batchPush msgs) = (BatchPush s msgs).1 := rfl
    rcases BatchPush_shape s msgs with h | ⟨hval, h | h⟩
    · rw [happ, h]
      exact ⟨rfl, rfl, rfl, rfl, fun off _ _ => rfl⟩
    all_goals {
      rw [happ, h]
      have hval2 : ∀ m ∈ msgs, 4 + m.length ≤ s.slot_size := by
        intro m hm
        have := (hval m hm).2.1
        have := geom_slot_size hg
        omega
      obtain ⟨l1, l2, l3, l4, l5, l6, l7, l8, l9, l10, l11, l12, l13,
        l14⟩ := batchPushLoop_spec msgs s hval2
      refine ⟨l3, l4, l5, l6, ?_⟩
      intro off ho4 hoff
      show (BatchPushLoop s msgs).1.buffer _ = _
      apply l14
      intro j hj hreg
      have hi := slotRegion_unique hoff hreg
      exact notfull_ne_lastslot hk hr (l13 j hj) hi
    }
  | tryPop => simp [Op.isProducerApi] at hop
  | batchPop k tp => simp [Op.isProducerApi] at hop

/-- Two messages pushed on a fresh capacity-8 channel: `[10]` into
slot 0, `[20]` into slot 1. -/
def C3full : ChanState := (TryPush (TryPush (initChan 8 64) [10]).2 [20]).2

/-- C3 is false as stated for batch views: `batch_pop(2)` returns the
views `[10]` (slot 0) and `[20]` (slot 1) and releases each consumed
slot by advancing `read_index` per message, so only the most recently
popped slot `(read_index − 1) & mask` is protected by the producer's
not-full check.  Seven subsequent `try_push` calls — all accepted —
wrap the ring (`write_index` reaches 9, and `8 & 7 = 0`) and overwrite
the first view's payload from `[10]` to `[30]` before the consumer's
next pop. -/
theorem C3_counterexample :
    (BatchPop C3full 2 false).2.1 = [[10], [20]] ∧
    ReadBytes (BatchPop C3full 2 false).2.2.buffer
      (GetSlotPtr 0 8 72 + SIZE_PREFIX_BYTES) 1 = [10] ∧
    (RunOps (BatchPop C3full 2 false).2.2
      (List.replicate 7 (Op.tryPush [30]))).write_index = 9 ∧
    ReadBytes (RunOps (BatchPop C3full 2 false).2.2
        (List.replicate 7 (Op.tryPush [30]))).buffer
      (GetSlotPtr 0 8 72 + SIZE_PREFIX_BYTES) 1 = [30] := by
  decide

/-- C3 (amended).  For every channel with valid geometry in a state
where the consumer has popped at least one message (so the most
recently returned view is the `n`-byte payload of the slot of
`read_index − 1`, `n` at most the maximum message size), every sequence
of producer endpoint operations (`reserve`, `commit`, `rollback`,
`try_push`, `batch_push`) performed before the consumer's next pop
leaves both `read_index` and every byte of that view unchanged:
re-reading the view after the operations yields the same bytes.
Earlier views of the same batch are not protected (see the
counterexample). -/
theorem C3_view_stable (s : ChanState) (ops : List Op) (n : Nat)
    (hg : ValidGeom s) (hr : 1 ≤ s.read_index)
    (hn : n ≤ s.max_message_size)
    (hops : ∀ op ∈ ops, Op.isProducerApi op = true) :
    ReadBytes (RunOps s ops).buffer
        (GetSlotPtr (s.read_index - 1) s.capacity s.slot_size +
          SIZE_PREFIX_BYTES) n =
      ReadBytes s.buffer
        (GetSlotPtr (s.read_index - 1) s.capacity s.slot_size +
          SIZE_PREFIX_BYTES) n ∧
    (RunOps s ops).read_index = s.read_index := by
  induction ops generalizing s with
  | nil => exact ⟨rfl, rfl⟩
  | cons op rest ih =>
    obtain ⟨p1, p2, p3, p4, p5⟩ :=
      producerOp_step s op (hops op (List.mem_cons_self op rest)) hg hr
    have hg' : ValidGeom (applyOp s op) := by
      unfold ValidGeom
      rw [p2, p3, p4]
      exact hg
    have hr' : 1 ≤ (applyOp s op).read_index := by omega
    have hn' : n ≤ (applyOp s op).max_message_size := by
      rw [p3]; exact hn
    have hops' : ∀ o ∈ rest, Op.isProducerApi o = true := by
      intro o ho
      exact hops o (List.mem_cons_of_mem op ho)
    obtain ⟨ihb, ihr⟩ := ih (applyOp s op) hg' hr' hn' hops'
    constructor
    · show ReadBytes (RunOps (applyOp s op) rest).buffer _ _ = _
      rw [p1, p2, p4] at ihb
      rw [ihb]
      apply readBytes_congr
      intro j hj
      have harith : GetSlotPtr (s.read_index - 1) s.capacity s.slot_size +
          SIZE_PREFIX_BYTES + j =
          GetSlotPtr (s.read_index - 1) s.capacity s.slot_size +
          (SIZE_PREFIX_BYTES + j) := by omega
      rw [harith]
      apply p5
      · show 4 ≤ SIZE_PREFIX_BYTES + j
        unfold SIZE_PREFIX_BYTES
        omega
      · show SIZE_PREFIX_BYTES + j < s.slot_size
        have := geom_slot_size hg
        unfold SIZE_PREFIX_BYTES
        omega
    · show (RunOps (applyOp s op) rest).read_index = s.read_index
      rw [ihr, p1]

/-- A concrete state in which the consumer has just popped one message:
push `[7]` on a fresh capacity-8 channel, then pop it. -/
def C3state : ChanState := (TryPop (TryPush (initChan 8 64) [7]).2).2.2

/-- Witness for C3: after a push, a reserve/commit round and a batch
push, the 1-byte view returned by the last pop re-reads unchanged. -/
theorem C3_view_stable_witness :
    (ValidGeom C3state ∧ 1 ≤ C3state.read_index ∧
      1 ≤ C3state.max_message_size ∧
      (∀ op ∈ [Op.tryPush [9], Op.reserve 2, Op.commit 2,
        Op.batchPush [[1], [2]]], Op.isProducerApi op = true)) ∧
    (ReadBytes (RunOps C3state [Op.tryPush [9], Op.reserve 2, Op.commit 2,
          Op.batchPush [[1], [2]]]).buffer
        (GetSlotPtr (C3state.read_index - 1) C3state.capacity
          C3state.slot_size + SIZE_PREFIX_BYTES) 1 =
      ReadBytes C3state.buffer
        (GetSlotPtr (C3state.read_index - 1) C3state.capacity
          C3state.slot_size + SIZE_PREFIX_BYTES) 1 ∧
    (RunOps C3state [Op.tryPush [9], Op.reserve 2, Op.commit 2,
        Op.batchPush [[1], [2]]]).read_index = C3state.read_index) :=
  ⟨⟨by decide, by decide, by decide, by decide⟩,
    C3_view_stable C3state
      [Op.tryPush [9], Op.reserve 2, Op.commit 2, Op.batchPush [[1], [2]]] 1
      (by decide) (by decide) (by decide) (by decide)⟩

/-! ### Claim C4: drain after producer destruction -/

/-- Iterate `TryPop` `k` times, collecting result codes and views. -/
def TryPopN : ChanState → Nat → List (PopResult × Option (List Nat)) × ChanState
  | s, 0 => ([], s)
  | s, k + 1 =>
    let t := TryPop s
    let u := TryPopN t.2.2 k
    ((t.1, t.2.1) :: u.1, u.2)

theorem destroyProducer_msgs (s : ChanState) :
    Msgs (DestroyProducer s) = Msgs s :=
  msgsAux_congr _ _ (fun j _ => rfl)

theorem tryPopN_drains (l : List (List Nat)) :
    ∀ s : ChanState, ValidGeom s → Inv s → Msgs s = l →
      s.producer_alive = false →
      (TryPopN s (l.length + 1)).1 =
        l.map (fun m => (PopResult.Success, some m)) ++
          [(PopResult.ChannelClosed, none)] := by
  induction l with
  | nil =>
    intro s hg hinv hm hdead
    obtain ⟨hle, hlt, _⟩ := hinv
    have h0 : s.write_index - s.read_index = 0 := by
      have := msgs_length s
      rw [hm] at this
      simpa using this.symm
    have hemp : IsQueueEmpty s.read_index s.write_index s.capacity := by
      have : s.read_index = s.write_index := by omega
      show s.read_index &&& (s.capacity - 1) =
        s.write_index &&& (s.capacity - 1)
      rw [this]
    have hpop : TryPop s = (PopResult.ChannelClosed, none, s) := by
      rw [TryPop_empty_state s hemp, hdead]
      rfl
    show ((TryPop s).1, (TryPop s).2.1) :: (TryPopN (TryPop s).2.2 0).1 =
      [(PopResult.ChannelClosed, none)]
    rw [hpop]
    rfl
  | cons m rest ih =>
    intro s hg hinv hm hdead
    obtain ⟨hpop, hmsgs, hinv'⟩ := popped_step s hg hinv hm
    have hg' : ValidGeom (PoppedState s) := hg
    have hdead' : (PoppedState s).producer_alive = false := hdead
    show ((TryPop s).1, (TryPop s).2.1) ::
        (TryPopN (TryPop s).2.2 (rest.length + 1)).1 = _
    rw [hpop]
    show (PopResult.Success, some m) ::
        (TryPopN (PoppedState s) (rest.length + 1)).1 = _
    rw [ih (PoppedState s) hg' hinv' hmsgs hdead']
    rfl

/-- C4.  For every channel with valid geometry satisfying the queue
invariant and holding the committed messages `Msgs s`, after the producer
endpoint is destroyed the consumer's next `(Msgs s).length` `try_pop`
calls each succeed and return the stored messages in commit order, and
the following call returns channel-closed (not empty). -/
theorem C4_drain_then_closed (s : ChanState) (hg : ValidGeom s)
    (hinv : Inv s) :
    (TryPopN (DestroyProducer s) ((Msgs s).length + 1)).1 =
      (Msgs s).map (fun m => (PopResult.Success, some m)) ++
        [(PopResult.ChannelClosed, none)] := by
  have hg' : ValidGeom (DestroyProducer s) := hg
  have hinv' : Inv (DestroyProducer s) := by
    obtain ⟨h1, h2, h3⟩ := hinv
    exact ⟨h1, h2, h3⟩
  have hm : Msgs (DestroyProducer s) = Msgs s := destroyProducer_msgs s
  have hdead : (DestroyProducer s).producer_alive = false := rfl
  have := tryPopN_drains (Msgs s) (DestroyProducer s) hg' hinv' hm hdead
  exact this

/-- A channel holding two committed messages, for the C4 witness. -/
def C4state : ChanState :=
  (TryPush (TryPush (initChan 16 256) [1]).2 [2, 3]).2

/-- Witness for C4 at a concrete two-message channel: both messages are
drained in order and the third pop reports channel-closed. -/
theorem C4_drain_then_closed_witness :
    (ValidGeom C4state ∧ Inv C4state) ∧
    (TryPopN (DestroyProducer C4state) ((Msgs C4state).length + 1)).1 =
      (Msgs C4state).map (fun m => (PopResult.Success, some m)) ++
        [(PopResult.ChannelClosed, none)] :=
  ⟨⟨by decide, by decide⟩,
    C4_drain_then_closed C4state (by decide) (by decide)⟩

/-! ### Claim C5: `try_push` returning queue-full versus the pending
count -/

/-- A fresh capacity-8 channel with an outstanding reservation. -/
def C5state : ChanState :=
  ((Reserve (initChan 8 64) 1).map Prod.snd).getD (initChan 8 64)

/-- C5 is false as stated: with an outstanding reservation (obtained from
a genuine `Reserve` call on the empty queue), `try_push` returns
queue-full while the pending count is 0, not `capacity − 1 = 7`. -/
theorem C5_counterexample :
    (Reserve (initChan 8 64) 1).isSome = true ∧
    (TryPush C5state [37]).1 = PushResult.QueueFull ∧
    C5state.capacity = 8 ∧
    C5state.write_index - C5state.read_index = 0 ∧
    AvailableMessages C5state.read_index C5state.write_index
      C5state.capacity = 0 := by
  decide

/-- C5 (amended).  For every `try_push` that returns queue-full on a
channel with valid geometry, satisfying the queue invariant, and with no
outstanding reservation, the pending message count at the moment of
return is exactly `capacity − 1` — both as the index difference and as
the count `AvailableMessages` computes.  (With an outstanding
reservation, `try_push` also reports queue-full, at any pending count;
see the counterexample.) -/
theorem C5_queueFull_pending (s : ChanState) (data : List Nat)
    (hg : ValidGeom s) (hinv : Inv s) (hres : s.reserved_slot = none)
    (h : (TryPush s data).1 = PushResult.QueueFull) :
    s.write_index - s.read_index = s.capacity - 1 ∧
    AvailableMessages s.read_index s.write_index s.capacity =
      s.capacity - 1 := by
  obtain ⟨hle, hlt, _⟩ := hinv
  have hk := geom_pow2 hg
  have hcap := geom_cap_pos hg
  by_cases h1 : IsValidMessageSize data.length s.max_message_size
  · by_cases h3 : s.consumer_alive
    · by_cases h4 : IsQueueFull s.write_index s.read_index s.capacity
      · have hpend : s.write_index - s.read_index = s.capacity - 1 :=
          (full_iff_pending hcap hle hlt).mp
            ((isQueueFull_iff_mod hk).mp h4)
        refine ⟨hpend, ?_⟩
        unfold AvailableMessages
        rw [and_mask_eq_mod _ hk, hpend]
        exact Nat.mod_eq_of_lt (by omega)
      · rw [TryPush_eq_pushed s data h1 hres h3 h4] at h
        simp at h
    · rw [TryPush_dead s data h1 h3] at h
      simp at h
  · rw [TryPush_invalid s data h1] at h
    simp at h

/-- A capacity-8 channel filled to its usable limit of 7 messages. -/
def C5full : ChanState :=
  (BatchPush (initChan 8 64) (List.replicate 7 [5])).1

/-- Witness for C5 (amended): on the full channel a `try_push` reports
queue-full and the pending count is exactly 7 = capacity − 1. -/
theorem C5_queueFull_pending_witness :
    (ValidGeom C5full ∧ Inv C5full ∧ C5full.reserved_slot = none ∧
      (TryPush C5full [6]).1 = PushResult.QueueFull) ∧
    (C5full.write_index - C5full.read_index = C5full.capacity - 1 ∧
      AvailableMessages C5full.read_index C5full.write_index
        C5full.capacity = C5full.capacity - 1) :=
  ⟨⟨by decide, by decide, by decide, by decide⟩,
    C5_queueFull_pending C5full [6] (by decide) (by decide) (by decide)
      (by decide)⟩

/-! ### Claim C6: wake count of a whole `BatchPop` call -/

theorem batchPop_notifies_le (s : ChanState) (k : Nat) (tp : Bool) :
    (BatchPop s k tp).2.2.read_notifies ≤
      s.read_notifies + (if tp = true then 2 else 1) := by
  by_cases hk0 : k = 0
  · subst hk0
    have heq : BatchPop s 0 tp = (PopResult.Empty, [], s) := by
      unfold BatchPop
      rw [if_pos rfl]
    rw [heq]
    show s.read_notifies ≤ _
    split_ifs <;> omega
  · cases tp with
    | false =>
      obtain ⟨l1, l2, l3, l4, l5, l6, l7, l8, l9, l10, l11, l12, l13,
        l14⟩ := batchPopLoop_spec k s
      have heq : (BatchPop s k false).2.2 =
          (if (BatchPopLoop s k).2.isEmpty then (BatchPopLoop s k).1
           else { (BatchPopLoop s k).1 with
             read_notifies := (BatchPopLoop s k).1.read_notifies + 1 }) := by
        unfold BatchPop
        rw [if_neg hk0, if_neg (show ¬ ((false : Bool) = true) by simp)]
        rcases hbp : BatchPopLoop s k with ⟨s2, msgs⟩
        show (if msgs.isEmpty = true then
            (if ¬ s.producer_alive = true
              then (PopResult.ChannelClosed, ([] : List (List Nat)), s2)
              else (PopResult.Empty, [], s2))
          else (PopResult.Success, msgs,
            { s2 with read_notifies := s2.read_notifies + 1 })).2.2 =
          if msgs.isEmpty then s2
          else { s2 with read_notifies := s2.read_notifies + 1 }
        by_cases hm : msgs.isEmpty
        · rw [if_pos hm, if_pos hm]
          by_cases hp : s.producer_alive
          · rw [if_neg (by simp [hp])]
          · rw [if_pos (by simpa using hp)]
        · rw [if_neg hm, if_neg hm]
      rw [heq]
      by_cases hm : (BatchPopLoop s k).2.isEmpty
      · rw [if_pos hm]
        show (BatchPopLoop s k).1.read_notifies ≤ s.read_notifies + 1
        omega
      · rw [if_neg hm]
        show (BatchPopLoop s k).1.read_notifies + 1 ≤ s.read_notifies + 1
        omega
    | true =>
      rcases hbb : BlockingPop s with ⟨r1, m1, sA⟩
      have heq : (BatchPop s k true).2.2 =
          (match (r1, m1, sA) with
            | (PopResult.Success, some m, s1) =>
              (PopResult.Success,
                m :: (BatchPopLoop s1 (k - 1)).2,
                { (BatchPopLoop s1 (k - 1)).1 with
                  read_notifies :=
                    (BatchPopLoop s1 (k - 1)).1.read_notifies + 1 })
            | (r, _, s1) => (r, [], s1)).2.2 := by
        unfold BatchPop
        rw [if_neg hk0, if_pos (show (true : Bool) = true from rfl), hbb]
      rw [heq]
      have hA : sA.read_notifies ≤ s.read_notifies + 1 := by
        rcases BlockingPop_shape s with hbs | ⟨hne, hbs⟩
        · rw [hbb] at hbs
          have : sA = s := hbs
          rw [this]
          omega
        · rw [hbb] at hbs
          have hsA : sA = PoppedState s :=
            (Prod.mk.injEq _ _ _ _ ▸ (Prod.mk.injEq _ _ _ _ ▸ hbs).2).2
          rw [hsA]
          show s.read_notifies + 1 ≤ s.read_notifies + 1
          omega
      obtain ⟨l1, l2, l3, l4, l5, l6, l7, l8, l9, l10, l11, l12, l13,
        l14⟩ := batchPopLoop_spec (k - 1) sA
      cases r1 with
      | Success =>
        cases m1 with
        | none =>
          show sA.read_notifies ≤ s.read_notifies + 2
          omega
        | some m =>
          show (BatchPopLoop sA (k - 1)).1.read_notifies + 1 ≤
            s.read_notifies + 2
          omega
      | Timeout =>
        show sA.read_notifies ≤ s.read_notifies + 2
        omega
      | ChannelClosed =>
        show sA.read_notifies ≤ s.read_notifies + 2
        omega
      | Empty =>
        show sA.read_notifies ≤ s.read_notifies + 2
        omega

/-- A channel holding one committed message, for the C6 counterexample. -/
def C6state : ChanState := (TryPush (initChan 8 64) [5]).2

/-- C6 is false as stated: a `batch_pop(max_count = 1)` with a positive
timeout on a channel holding one message emits two wakes on
`read_index` — one inside the blocking prefix's `TryPop`, one at the end
of the batch. -/
theorem C6_counterexample :
    C6state.read_notifies = 0 ∧
    (BatchPop C6state 1 true).2.2.read_notifies = 2 := by
  decide

/-- C6 (amended).  A `batch_pop` call with zero timeout emits at most one
wake on `read_index` regardless of `max_count` and queue contents; with a
positive timeout it emits at most two (one from the blocking prefix's
pop, one from the end of the batch). -/
theorem C6_batchPop_wakes (s : ChanState) (k : Nat) (tp : Bool) :
    (BatchPop s k false).2.2.read_notifies ≤ s.read_notifies + 1 ∧
    (BatchPop s k tp).2.2.read_notifies ≤ s.read_notifies + 2 := by
  constructor
  · have := batchPop_notifies_le s k false
    simpa using this
  · have := batchPop_notifies_le s k tp
    cases tp with
    | false => simp at this; omega
    | true => simp at this; omega

/-! ### Claim C7: the status `BatchPop` returns -/

theorem BatchPop_empty_eq (s : ChanState) (k : Nat) (tp : Bool)
    (hk : k ≠ 0)
    (hemp : IsQueueEmpty s.read_index s.write_index s.capacity) :
    BatchPop s k tp =
      ((if s.producer_alive then
          (if tp then PopResult.Timeout else PopResult.Empty)
        else PopResult.ChannelClosed), [], s) := by
  unfold BatchPop
  rw [if_neg hk]
  cases tp with
  | true =>
    rw [if_pos (show (true : Bool) = true from rfl)]
    have hblock : BlockingPop s =
        ((if s.producer_alive then PopResult.Timeout
          else PopResult.ChannelClosed), none, s) := by
      unfold BlockingPop
      rw [TryPop_empty_state s hemp]
      by_cases hp : s.producer_alive
      · rw [if_pos hp, if_pos hp]
      · rw [if_neg hp, if_neg hp]
    rw [hblock]
    by_cases hp : s.producer_alive
    · rw [if_pos hp, if_pos hp]
      try rfl
    · rw [if_neg hp, if_neg hp]
      try rfl
  | false =>
    rw [if_neg (show ¬ ((false : Bool) = true) by simp)]
    obtain ⟨kk, hkk⟩ : ∃ kk, k = kk + 1 :=
      ⟨k - 1, by omega⟩
    subst hkk
    have hloop : BatchPopLoop s (kk + 1) = (s, []) := by
      show (if IsQueueEmpty s.read_index s.write_index s.capacity
        then (s, []) else _) = (s, [])
      rw [if_pos hemp]
    rw [hloop]
    show (if ([] : List (List Nat)).isEmpty = true then
        (if ¬ s.producer_alive = true
          then (PopResult.ChannelClosed, ([] : List (List Nat)), s)
          else (PopResult.Empty, [], s))
      else (PopResult.Success, ([] : List (List Nat)),
        { s with read_notifies := s.read_notifies + 1 })) = _
    rw [if_pos (show ([] : List (List Nat)).isEmpty = true from rfl)]
    by_cases hp : s.producer_alive
    · rw [if_neg (show ¬ (¬ s.producer_alive = true) by simp [hp]),
        if_pos hp]
      rfl
    · rw [if_pos (show (¬ s.producer_alive = true) by simpa using hp),
        if_neg hp]

theorem BatchPop_nonempty_success (s : ChanState) (k : Nat) (tp : Bool)
    (hk : k ≠ 0)
    (hne : ¬ IsQueueEmpty s.read_index s.write_index s.capacity) :
    (BatchPop s k tp).1 = PopResult.Success ∧
    (BatchPop s k tp).2.1 ≠ [] := by
  unfold BatchPop
  rw [if_neg hk]
  cases tp with
  | true =>
    rw [if_pos (show (true : Bool) = true from rfl)]
    have hblock : BlockingPop s = (PopResult.Success,
        some (DecodeSlot s s.read_index), PoppedState s) := by
      unfold BlockingPop
      rw [TryPop_success_state s hne]
      rfl
    rw [hblock]
    exact ⟨rfl, by simp⟩
  | false =>
    rw [if_neg (show ¬ ((false : Bool) = true) by simp)]
    obtain ⟨l1, l2, l3, l4, l5, l6, l7, l8, l9, l10, l11, l12, l13, l14⟩ :=
      batchPopLoop_spec k s
    have hcount : (BatchPopLoop s k).2.length ≠ 0 := by
      intro h0
      rcases l13 with h | h
      · omega
      · rw [h0] at h
        simp at h
        exact hne h
    rcases hbp : BatchPopLoop s k with ⟨s2, msgs⟩
    rw [hbp] at hcount
    simp only at hcount
    have hm : msgs.isEmpty = false := by
      cases msgs with
      | nil => simp at hcount
      | cons a l => rfl
    have hmne : msgs ≠ [] := by
      cases msgs with
      | nil => simp at hcount
      | cons a l => simp
    show (if msgs.isEmpty = true then
        (if ¬ s.producer_alive = true
          then (PopResult.ChannelClosed, ([] : List (List Nat)), s2)
          else (PopResult.Empty, [], s2))
      else (PopResult.Success, msgs,
        { s2 with read_notifies := s2.read_notifies + 1 })).1 =
        PopResult.Success ∧
      (if msgs.isEmpty = true then
        (if ¬ s.producer_alive = true
          then (PopResult.ChannelClosed, ([] : List (List Nat)), s2)
          else (PopResult.Empty, [], s2))
      else (PopResult.Success, msgs,
        { s2 with read_notifies := s2.read_notifies + 1 })).2.1 ≠ []
    rw [if_neg (by simp [hm])]
    exact ⟨rfl, hmne⟩

/-- C7 (amended).  For every `batch_pop(max_count, timeout)` call with
`max_count ≥ 1` on a channel with valid geometry satisfying the queue
invariant: if the queue is non-empty the call consumes at least one
message and returns success; if the queue is empty it consumes nothing
and returns — channel-closed when the producer is dead, otherwise
timeout when the timeout was positive (the blocking prefix timed out)
and empty when it was zero.  In every case the status is success exactly
when at least one message was consumed.  (`batch_pop` with
`max_count = 0` returns empty even when the producer is dead; see the
counterexample.) -/
theorem C7_batchPop_status (s : ChanState) (k : Nat) (tp : Bool)
    (hg : ValidGeom s) (hinv : Inv s) (hk : 1 ≤ k) :
    (s.read_index < s.write_index →
      (BatchPop s k tp).1 = PopResult.Success ∧
      (BatchPop s k tp).2.1 ≠ []) ∧
    (s.read_index = s.write_index →
      (BatchPop s k tp).2.1 = [] ∧
      (BatchPop s k tp).1 =
        (if s.producer_alive then
          (if tp then PopResult.Timeout else PopResult.Empty)
        else PopResult.ChannelClosed)) ∧
    ((BatchPop s k tp).1 = PopResult.Success ↔
      (BatchPop s k tp).2.1 ≠ []) := by
  obtain ⟨hle, hlt, _⟩ := hinv
  have hk0 : k ≠ 0 := by omega
  have hkp := geom_pow2 hg
  refine ⟨?_, ?_, ?_⟩
  · intro hlt2
    have hne : ¬ IsQueueEmpty s.read_index s.write_index s.capacity := by
      rw [isQueueEmpty_iff_mod hkp, empty_iff_pending hle hlt]
      omega
    exact BatchPop_nonempty_success s k tp hk0 hne
  · intro heq
    have hemp : IsQueueEmpty s.read_index s.write_index s.capacity := by
      rw [isQueueEmpty_iff_mod hkp, empty_iff_pending hle hlt]
      exact heq
    rw [BatchPop_empty_eq s k tp hk0 hemp]
    exact ⟨rfl, rfl⟩
  · rcases Nat.lt_or_ge s.read_index s.write_index with h | h
    · have hne : ¬ IsQueueEmpty s.read_index s.write_index s.capacity := by
        rw [isQueueEmpty_iff_mod hkp, empty_iff_pending hle hlt]
        omega
      obtain ⟨h1, h2⟩ := BatchPop_nonempty_success s k tp hk0 hne
      exact ⟨fun _ => h2, fun _ => h1⟩
    · have heq : s.read_index = s.write_index := by omega
      have hemp : IsQueueEmpty s.read_index s.write_index s.capacity := by
        rw [isQueueEmpty_iff_mod hkp, empty_iff_pending hle hlt]
        exact heq
      rw [BatchPop_empty_eq s k tp hk0 hemp]
      constructor
      · intro h1
        exfalso
        by_cases hp : s.producer_alive
        · rw [if_pos hp] at h1
          cases tp with
          | true => simp at h1
          | false => simp at h1
        · rw [if_neg hp] at h1
          simp at h1
      · intro h2
        exact absurd rfl h2

/-- C7 is false as stated: `batch_pop(max_count = 0)` on a channel whose
producer endpoint has been destroyed consumes nothing and returns empty,
not channel-closed. -/
theorem C7_counterexample :
    (DestroyProducer (initChan 8 64)).producer_alive = false ∧
    (BatchPop (DestroyProducer (initChan 8 64)) 0 false).2.1 = [] ∧
    (BatchPop (DestroyProducer (initChan 8 64)) 0 false).1 =
      PopResult.Empty := by
  decide

/-- Witness for C7 (amended) on a channel holding one message, with
`max_count = 2` and zero timeout. -/
theorem C7_batchPop_status_witness :
    (ValidGeom C6state ∧ Inv C6state ∧ 1 ≤ 2) ∧
    ((C6state.read_index < C6state.write_index →
      (BatchPop C6state 2 false).1 = PopResult.Success ∧
      (BatchPop C6state 2 false).2.1 ≠ []) ∧
    (C6state.read_index = C6state.write_index →
      (BatchPop C6state 2 false).2.1 = [] ∧
      (BatchPop C6state 2 false).1 =
        (if C6state.producer_alive then
          (if false then PopResult.Timeout else PopResult.Empty)
        else PopResult.ChannelClosed)) ∧
    ((BatchPop C6state 2 false).1 = PopResult.Success ↔
      (BatchPop C6state 2 false).2.1 ≠ [])) :=
  ⟨⟨by decide, by decide, by decide⟩,
    C7_batchPop_status C6state 2 false (by decide) (by decide) (by decide)⟩

/-! ### C8: configuration normalization (`config.hpp`) -/

/-- Unfolding of `ChannelConfig.Normalize` with the local bindings
substituted. -/
theorem Normalize_def (c : ChannelConfig) : c.Normalize =
    { capacity :=
        if (min (max c.capacity 8) 524288) &&&
            ((min (max c.capacity 8) 524288) - 1) ≠ 0
        then RoundUpPowerOf2 (min (max c.capacity 8) 524288)
        else min (max c.capacity 8) 524288,
      max_message_size := min (max c.max_message_size 64) 1048576 } := rfl

/-- Capacity component of `Normalize`. -/
theorem Normalize_capacity (c : ChannelConfig) : (c.Normalize).capacity =
    (if (min (max c.capacity 8) 524288) &&&
        ((min (max c.capacity 8) 524288) - 1) ≠ 0
     then RoundUpPowerOf2 (min (max c.capacity 8) 524288)
     else min (max c.capacity 8) 524288) := rfl

/-- Message-size component of `Normalize`. -/
theorem Normalize_mms (c : ChannelConfig) : (c.Normalize).max_message_size =
    min (max c.max_message_size 64) 1048576 := rfl

/-- `IsValid` spelled out as the conjunction of its range and
power-of-two checks. -/
theorem isValid_true_iff (c : ChannelConfig) : c.IsValid = true ↔
    (8 ≤ c.capacity ∧ c.capacity ≤ 524288 ∧
     c.capacity &&& (c.capacity - 1) = 0 ∧
     64 ≤ c.max_message_size ∧ c.max_message_size ≤ 1048576) := by
  unfold ChannelConfig.IsValid
  by_cases h1 : c.capacity < 8 ∨ 524288 < c.capacity
  · rw [if_pos h1]
    constructor
    · intro hfalse; exact absurd hfalse (by simp)
    · intro hr; omega
  rw [if_neg h1]
  by_cases h2 : c.capacity &&& (c.capacity - 1) ≠ 0
  · rw [if_pos h2]
    constructor
    · intro hfalse; exact absurd hfalse (by simp)
    · intro hr; exact absurd hr.2.2.1 h2
  rw [if_neg h2]
  by_cases h3 : c.max_message_size < 64 ∨ 1048576 < c.max_message_size
  · rw [if_pos h3]
    constructor
    · intro hfalse; exact absurd hfalse (by simp)
    · intro hr; omega
  rw [if_neg h3]
  constructor
  · intro _
    exact ⟨by omega, by omega, not_not.mp h2, by omega, by omega⟩
  · intro _
    rfl

/-- Bit characterization of one `OrShift` step: if `y` smears bits of `x`
over a window of width `w`, then `OrShift y w` smears them over `2 * w`. -/
theorem orShift_window {x y w : Nat}
    (hy : ∀ i, y.testBit i = true ↔ ∃ j, j < w ∧ x.testBit (i + j) = true) :
    ∀ i, (OrShift y w).testBit i = true ↔
      ∃ j, j < 2 * w ∧ x.testBit (i + j) = true := by
  intro i
  unfold OrShift
  rw [Nat.testBit_or, Nat.testBit_shiftRight, Bool.or_eq_true, hy i, hy (w + i)]
  constructor
  · rintro (⟨j, hj, hb⟩ | ⟨j, hj, hb⟩)
    · exact ⟨j, by omega, hb⟩
    · refine ⟨w + j, by omega, ?_⟩
      have he : i + (w + j) = w + i + j := by omega
      rw [he]
      exact hb
  · rintro ⟨j, hj, hb⟩
    by_cases hjw : j < w
    · exact Or.inl ⟨j, hjw, hb⟩
    · refine Or.inr ⟨j - w, by omega, ?_⟩
      have he : w + i + (j - w) = i + j := by omega
      rw [he]
      exact hb

/-- The six-shift cascade of `RoundUpPowerOf2` smears every set bit of
`x` down through 64 positions. -/
theorem smear_window (x : Nat) : ∀ i,
    (OrShift (OrShift (OrShift (OrShift (OrShift
      (OrShift x 1) 2) 4) 8) 16) 32).testBit i = true ↔
    ∃ j, j < 64 ∧ x.testBit (i + j) = true := by
  have W1 : ∀ i, x.testBit i = true ↔
      ∃ j, j < 1 ∧ x.testBit (i + j) = true := by
    intro i
    constructor
    · intro h
      exact ⟨0, by omega, by simpa using h⟩
    · rintro ⟨j, hj, hb⟩
      have hj0 : j = 0 := by omega
      subst hj0
      simpa using hb
  have W2 : ∀ i, (OrShift x 1).testBit i = true ↔
      ∃ j, j < 2 ∧ x.testBit (i + j) = true := orShift_window W1
  have W4 : ∀ i, (OrShift (OrShift x 1) 2).testBit i = true ↔
      ∃ j, j < 4 ∧ x.testBit (i + j) = true := orShift_window W2
  have W8 : ∀ i, (OrShift (OrShift (OrShift x 1) 2) 4).testBit i = true ↔
      ∃ j, j < 8 ∧ x.testBit (i + j) = true := orShift_window W4
  have W16 : ∀ i,
      (OrShift (OrShift (OrShift (OrShift x 1) 2) 4) 8).testBit i = true ↔
      ∃ j, j < 16 ∧ x.testBit (i + j) = true := orShift_window W8
  have W32 : ∀ i,
      (OrShift (OrShift (OrShift (OrShift (OrShift x 1) 2) 4) 8) 16).testBit
        i = true ↔
      ∃ j, j < 32 ∧ x.testBit (i + j) = true := orShift_window W16
  exact orShift_window W32

/-- For `1 ≤ x < 2^64` the smeared value is exactly `2^(log2 x + 1) - 1`:
all bits up to and including the top bit of `x` are set. -/
theorem smear_eq {x : Nat} (h1 : 1 ≤ x) (h2 : x < 2 ^ 64) :
    OrShift (OrShift (OrShift (OrShift (OrShift
      (OrShift x 1) 2) 4) 8) 16) 32 = 2 ^ (Nat.log2 x + 1) - 1 := by
  have ht : Nat.log2 x < 64 := (Nat.log2_lt (by omega)).mpr h2
  have hlo : 2 ^ Nat.log2 x ≤ x := Nat.log2_self_le (by omega)
  have hhi : x < 2 ^ (Nat.log2 x + 1) := Nat.lt_log2_self
  have hw := smear_window x
  set S := OrShift (OrShift (OrShift (OrShift (OrShift
      (OrShift x 1) 2) 4) 8) 16) 32 with hS
  apply Nat.eq_of_testBit_eq
  intro i
  rw [Nat.testBit_two_pow_sub_one]
  by_cases hit : i < Nat.log2 x + 1
  · have hb : S.testBit i = true :=
      (hw i).mpr ⟨Nat.log2 x - i, by omega, by
        have he : i + (Nat.log2 x - i) = Nat.log2 x := by omega
        rw [he]
        exact testBit_of_bounds hlo hhi⟩
    rw [hb]
    simp [hit]
  · have hb : S.testBit i = false := by
      cases hcase : S.testBit i with
      | false => rfl
      | true =>
        exfalso
        rcases (hw i).mp hcase with ⟨j, hj, hbit⟩
        have hpow : 2 ^ (Nat.log2 x + 1) ≤ 2 ^ (i + j) :=
          Nat.pow_le_pow_right (by omega) (by omega)
        have hlt : x < 2 ^ (i + j) := by omega
        rw [Nat.testBit_lt_two_pow hlt] at hbit
        exact Bool.noConfusion hbit
    rw [hb]
    simp [hit]

/-- `RoundUpPowerOf2` on `2 ≤ v` with `v - 1 < 2^64` returns
`2^(log2 (v-1) + 1)`. -/
theorem roundUpPowerOf2_eq {v : Nat} (h1 : 2 ≤ v) (h2 : v - 1 < 2 ^ 64) :
    RoundUpPowerOf2 v = 2 ^ (Nat.log2 (v - 1) + 1) := by
  unfold RoundUpPowerOf2
  rw [if_neg (by omega), smear_eq (x := v - 1) (by omega) h2]
  have hp : 0 < 2 ^ (Nat.log2 (v - 1) + 1) := Nat.pos_pow_of_pos _ (by omega)
  omega

/-- `Normalize` always yields a valid configuration whose capacity is a
power of two in `[8, 524288]` and whose message size lies in
`[64, 1048576]`. -/
theorem Normalize_isValid (c : ChannelConfig) :
    (c.Normalize).IsValid = true ∧
    (∃ k, (c.Normalize).capacity = 2 ^ k) ∧
    8 ≤ (c.Normalize).capacity ∧ (c.Normalize).capacity ≤ 524288 ∧
    64 ≤ (c.Normalize).max_message_size ∧
    (c.Normalize).max_message_size ≤ 1048576 := by
  have hcapeq := Normalize_capacity c
  have hmmseq := Normalize_mms c
  set cap := min (max c.capacity 8) 524288 with hcap
  have hkey : (∃ k, (c.Normalize).capacity = 2 ^ k) ∧
      8 ≤ (c.Normalize).capacity ∧ (c.Normalize).capacity ≤ 524288 := by
    by_cases t : cap &&& (cap - 1) = 0
    · rw [hcapeq, if_neg (not_not_intro t)]
      exact ⟨⟨Nat.log2 cap, pow2_of_land_eq_zero (by omega) t⟩,
        by omega, by omega⟩
    · rw [hcapeq, if_pos t]
      have hne : cap ≠ 524288 := by
        intro he
        apply t
        rw [he]
        decide
      have h2le : 2 ≤ cap := by omega
      have hlt : cap - 1 < 2 ^ 64 := by
        have hbig : (524287:Nat) < 2 ^ 64 := by decide
        omega
      rw [roundUpPowerOf2_eq h2le hlt]
      refine ⟨⟨_, rfl⟩, ?_, ?_⟩
      · have := Nat.lt_log2_self (n := cap - 1)
        omega
      · have hl : Nat.log2 (cap - 1) < 19 := by
          rw [Nat.log2_lt (by omega)]
          have h19 : (2:Nat) ^ 19 = 524288 := by decide
          omega
        calc (2:Nat) ^ (Nat.log2 (cap - 1) + 1) ≤ 2 ^ 19 :=
              Nat.pow_le_pow_right (by omega) (by omega)
          _ = 524288 := by decide
  refine ⟨(isValid_true_iff _).mpr
    ⟨hkey.2.1, hkey.2.2, ?_, ?_, ?_⟩, hkey.1, hkey.2.1, hkey.2.2, ?_, ?_⟩
  · obtain ⟨k, hk⟩ := hkey.1
    rw [hk, Nat.and_pow_two_sub_one_eq_mod]
    exact Nat.mod_self _
  · rw [hmmseq]; omega
  · rw [hmmseq]; omega
  · rw [hmmseq]; omega
  · rw [hmmseq]; omega

/-- A configuration that already passes `IsValid` is left unchanged by
`Normalize`. -/
theorem Normalize_of_isValid {c : ChannelConfig} (h : c.IsValid = true) :
    c.Normalize = c := by
  rcases (isValid_true_iff c).mp h with ⟨h1, h2, h3, h4, h5⟩
  have hc : min (max c.capacity 8) 524288 = c.capacity := by omega
  have hm : min (max c.max_message_size 64) 1048576 = c.max_message_size := by
    omega
  rw [Normalize_def, hc, hm, if_neg (not_not_intro h3)]

/-- C8: configuration normalization is idempotent
(`normalize(normalize(x)) = normalize(x)`) and always yields a valid
configuration — capacity a power of two in [8, 524288] and
max_message_size in [64, 1048576]; concretely capacity 1000 normalizes
to 1024, 4 to 8, and 1000000 to 524288. -/
theorem C8_normalize_idempotent_valid :
    (∀ c : ChannelConfig, (c.Normalize).Normalize = c.Normalize) ∧
    (∀ c : ChannelConfig, (c.Normalize).IsValid = true ∧
      (∃ k, (c.Normalize).capacity = 2 ^ k) ∧
      8 ≤ (c.Normalize).capacity ∧ (c.Normalize).capacity ≤ 524288 ∧
      64 ≤ (c.Normalize).max_message_size ∧
      (c.Normalize).max_message_size ≤ 1048576) ∧
    (ChannelConfig.Normalize ⟨1000, 4096⟩).capacity = 1024 ∧
    (ChannelConfig.Normalize ⟨4, 4096⟩).capacity = 8 ∧
    (ChannelConfig.Normalize ⟨1000000, 4096⟩).capacity = 524288 :=
  ⟨fun c => Normalize_of_isValid (Normalize_isValid c).1,
   Normalize_isValid, by decide, by decide, by decide⟩

/-! ### C10: `BatchPush` and an outstanding reservation -/

/-- The batch loop, entered with a queue that is not full, first writes
the head message into the slot of the starting `write_index`: afterwards
every byte of that slot's region agrees with a single slot write of the
head message onto the starting buffer. -/
theorem batchPushLoop_first_slot (s : ChanState) (m0 : List Nat)
    (rest : List (List Nat)) (hg : ValidGeom s) (hinv : Inv s)
    (hval : ∀ mm ∈ m0 :: rest, 4 + mm.length ≤ s.slot_size)
    (hnf : ¬ IsQueueFull s.write_index s.read_index s.capacity) :
    ∀ off, off < s.slot_size →
      (BatchPushLoop s (m0 :: rest)).1.buffer
        (GetSlotPtr s.write_index s.capacity s.slot_size + off) =
      WriteBytes
        (WriteSizePfx s.buffer
          (GetSlotPtr s.write_index s.capacity s.slot_size) m0.length)
        (GetSlotPtr s.write_index s.capacity s.slot_size + SIZE_PREFIX_BYTES)
        m0 (GetSlotPtr s.write_index s.capacity s.slot_size + off) := by
  intro off hoff
  have hk := geom_pow2 hg
  have hcap := geom_cap_pos hg
  obtain ⟨hle, hlt, _⟩ := hinv
  have hnotlast : s.write_index - s.read_index ≠ s.capacity - 1 := by
    intro heq
    exact hnf ((isQueueFull_iff_mod hk).mpr
      ((full_iff_pending hcap hle hlt).mpr heq))
  set s1 : ChanState := { s with
    buffer := WriteBytes
      (WriteSizePfx s.buffer
        (GetSlotPtr s.write_index s.capacity s.slot_size) m0.length)
      (GetSlotPtr s.write_index s.capacity s.slot_size +
        SIZE_PREFIX_BYTES) m0
    write_index := s.write_index + 1 } with hs1
  have he : BatchPushLoop s (m0 :: rest) =
      ((BatchPushLoop s1 rest).1, (BatchPushLoop s1 rest).2 + 1) := by
    show (if IsQueueFull s.write_index s.read_index s.capacity
      then (s, 0) else
        (fun p => (p.1, p.2 + 1)) (BatchPushLoop s1 rest)) =
      ((BatchPushLoop s1 rest).1, (BatchPushLoop s1 rest).2 + 1)
    rw [if_neg hnf]
  have hval1 : ∀ x ∈ rest, 4 + x.length ≤ s1.slot_size := fun x hx =>
    hval x (List.mem_cons_of_mem m0 hx)
  obtain ⟨hl1, _, _, _, _, _, _, _, _, _, _, _, _, hloc⟩ :=
    batchPushLoop_spec rest s1 hval1
  have hpend := batchPushLoop_pending rest s1 hk hcap hval1
    (show s.read_index ≤ s.write_index + 1 by omega)
    (show s.write_index + 1 - s.read_index + 1 ≤ s.capacity by omega)
  have hw1 : s1.write_index = s.write_index + 1 := rfl
  have hr1 : s1.read_index = s.read_index := rfl
  have hc1 : s1.capacity = s.capacity := rfl
  rw [hw1, hr1, hc1] at hpend
  have hsafe : ∀ j, j < (BatchPushLoop s1 rest).2 →
      ¬ SlotRegion s1.capacity s1.slot_size (s1.write_index + j)
        (GetSlotPtr s.write_index s.capacity s.slot_size + off) := by
    intro j hj hreg
    have hju : GetSlotIndex (s1.write_index + j) s1.capacity =
        GetSlotIndex s.write_index s1.capacity := slotRegion_unique hoff hreg
    rw [getSlotIndex_eq_mod _ hk, getSlotIndex_eq_mod _ hk] at hju
    have hju2 : (s.write_index + 1 + j) % s.capacity =
        s.write_index % s.capacity := hju
    exact slot_ne_of_pending (by omega) (by omega) (by omega) hju2
  rw [he]
  exact hloc (GetSlotPtr s.write_index s.capacity s.slot_size + off) hsafe

/-! ### C9: the broker registry (`broker.cpp`) -/

/-- Broker registry state (`MailboxBroker::Impl`, `broker.cpp`): the
name → channel map (`channels_`, modeled as an association list in
insertion order) and the statistics counters. -/
structure Broker where
  channels : List (String × ChanState)
  total_created : Nat
  total_destroyed : Nat

/-- A freshly constructed broker: empty registry, zero counters. -/
def initBroker : Broker :=
  { channels := [], total_created := 0, total_destroyed := 0 }

/-- `channels_.contains(std::string(name))`. -/
def Broker.hasName (b : Broker) (name : String) : Bool :=
  (b.channels.map Prod.fst).contains name

/-- `MailboxBroker::RequestChannel` (`broker.cpp`): normalize the config,
reject an invalid normalized config, reject an already-registered name,
otherwise construct the queue from the normalized geometry, insert it
under `name`, and bump `total_created`.  There is no check that `name`
is non-empty (the header only documents `!name.empty()` as a caller
precondition).  `std::bad_alloc` (the AllocationFailed path) is not
modeled. -/
def RequestChannel (b : Broker) (name : String) (config : ChannelConfig) :
    ChannelError × Broker :=
  if ¬ (config.Normalize).IsValid then (ChannelError.InvalidConfig, b)
  else if b.hasName name then (ChannelError.NameExists, b)
  else
    (ChannelError.Success,
      { channels := b.channels ++
          [(name, initChan (config.Normalize).capacity
            (config.Normalize).max_message_size)]
        total_created := b.total_created + 1
        total_destroyed := b.total_destroyed })

/-- The registry-membership test agrees with list membership of the
name column. -/
theorem hasName_iff (b : Broker) (name : String) :
    b.hasName name = true ↔ name ∈ b.channels.map Prod.fst := by
  unfold Broker.hasName
  simp

/-- C9 is false as stated: `RequestChannel` performs no empty-name check
(the header only documents `!name.empty()` as a caller precondition), so
requesting a channel under the empty name on a fresh broker succeeds and
registers the empty name. -/
theorem C9_counterexample :
    (RequestChannel initBroker "" ⟨1024, 4096⟩).1 = ChannelError.Success ∧
    (RequestChannel initBroker "" ⟨1024, 4096⟩).2.channels.map Prod.fst =
      [""] :=
  ⟨rfl, rfl⟩

/-- C9 (amended): the registry keeps its registered names pairwise
distinct — `request_channel` on an already-registered name returns
name-exists and leaves the broker unchanged, and on a fresh name appends
exactly that name — but an empty name is registered like any other
(the non-empty-name part of the claim fails, see the counterexample). -/
theorem C9_registry_distinct (b : Broker) (name : String)
    (config : ChannelConfig)
    (hnodup : (b.channels.map Prod.fst).Nodup) :
    (b.hasName name = true →
      RequestChannel b name config = (ChannelError.NameExists, b)) ∧
    ((RequestChannel b name config).2.channels.map Prod.fst).Nodup ∧
    (b.hasName name = false →
      (RequestChannel b name config).1 = ChannelError.Success ∧
      (RequestChannel b name config).2.channels.map Prod.fst =
        b.channels.map Prod.fst ++ [name]) := by
  have hval : (config.Normalize).IsValid = true := (Normalize_isValid config).1
  unfold RequestChannel
  rw [if_neg (not_not_intro hval)]
  by_cases hn : b.hasName name = true
  · rw [if_pos hn]
    refine ⟨fun _ => rfl, hnodup, fun hf => ?_⟩
    rw [hn] at hf
    exact Bool.noConfusion hf
  · rw [if_neg hn]
    have hmem : name ∉ b.channels.map Prod.fst := fun hm =>
      hn ((hasName_iff b name).mpr hm)
    refine ⟨fun h => absurd h hn, ?_, fun _ => ⟨rfl, ?_⟩⟩
    · show ((b.channels ++ [(name, initChan (config.Normalize).capacity
        (config.Normalize).max_message_size)]).map Prod.fst).Nodup
      rw [List.map_append]
      rw [List.nodup_append]
      refine ⟨hnodup, List.nodup_singleton name, ?_⟩
      intro a ha hb
      have : a = name := by simpa using hb
      rw [this] at ha
      exact hmem ha
    · show (b.channels ++ [(name, initChan (config.Normalize).capacity
        (config.Normalize).max_message_size)]).map Prod.fst =
        b.channels.map Prod.fst ++ [name]
      rw [List.map_append]
      rfl

/-- Witness for C9 (amended): a fresh name on the empty broker. -/
theorem C9_registry_distinct_witness :
    (initBroker.channels.map Prod.fst).Nodup ∧
    ((initBroker.hasName "m" = true →
      RequestChannel initBroker "m" ⟨1024, 4096⟩ =
        (ChannelError.NameExists, initBroker)) ∧
    ((RequestChannel initBroker "m" ⟨1024, 4096⟩).2.channels.map
      Prod.fst).Nodup ∧
    (initBroker.hasName "m" = false →
      (RequestChannel initBroker "m" ⟨1024, 4096⟩).1 =
        ChannelError.Success ∧
      (RequestChannel initBroker "m" ⟨1024, 4096⟩).2.channels.map Prod.fst =
        initBroker.channels.map Prod.fst ++ ["m"])) :=
  ⟨by decide, C9_registry_distinct initBroker "m" ⟨1024, 4096⟩ (by decide)⟩

/-- C10: `BatchPush` performs no check for an outstanding reservation.
With a reservation outstanding (obtained from `Reserve`), a `batch_push`
of valid messages still pushes at least one message, advances
`write_index` by the number pushed, starts writing at the current write
slot — the very slot the reservation points to, whose contents afterwards
are the first batch message — leaves the reservation outstanding, and a
subsequent `Commit` of a valid size still succeeds and advances
`write_index` once more. -/
theorem C10_batchPush_ignores_reservation (s : ChanState) (n addr : Nat)
    (s1 : ChanState) (msgs : List (List Nat)) (m : Nat)
    (hg : ValidGeom s) (hinv : Inv s)
    (hres : Reserve s n = some (addr, s1))
    (hne : msgs ≠ [])
    (hval : ∀ mm ∈ msgs, IsValidMessageSize mm.length s.max_message_size)
    (hbytes : ∀ b ∈ msgs.headI, b < 256)
    (hm : IsValidMessageSize m s.max_message_size) :
    1 ≤ (BatchPush s1 msgs).2 ∧
    (BatchPush s1 msgs).1.write_index =
      s.write_index + (BatchPush s1 msgs).2 ∧
    (BatchPush s1 msgs).1.reserved_slot =
      some (GetSlotIndex s.write_index s.capacity) ∧
    DecodeSlot (BatchPush s1 msgs).1 s.write_index = msgs.headI ∧
    (Commit (BatchPush s1 msgs).1 m).1 = true ∧
    (Commit (BatchPush s1 msgs).1 m).2.write_index =
      s.write_index + (BatchPush s1 msgs).2 + 1 := by
  obtain ⟨hvn, hres0, halive, hnf, haddr, hs1⟩ := Reserve_eq_some hres
  subst hs1
  rcases List.exists_cons_of_ne_nil hne with ⟨m0, rest, rfl⟩
  set S1 : ChanState := { s with
    reserved_slot := some (GetSlotIndex s.write_index s.capacity) } with hS1
  have hss4 : 4 + s.max_message_size ≤ s.slot_size := geom_slot_size hg
  have hmms32 : s.max_message_size < 4294967296 := geom_mms_lt hg
  have hval4 : ∀ mm ∈ m0 :: rest, 4 + mm.length ≤ S1.slot_size := by
    intro mm hmm
    have h1 : IsValidMessageSize mm.length s.max_message_size := hval mm hmm
    have h2 : mm.length ≤ s.max_message_size := h1.2.1
    show 4 + mm.length ≤ s.slot_size
    omega
  obtain ⟨hl1, hw2, hr3, hcap4, hmms5, hss6, hresv7, hpal8, hcal9,
    hwn10, hrn11, hstop12, hguard13, hloc14⟩ :=
    batchPushLoop_spec (m0 :: rest) S1 hval4
  have hP1 : 1 ≤ (BatchPushLoop S1 (m0 :: rest)).2 := by
    by_contra hcon
    have hP0 : (BatchPushLoop S1 (m0 :: rest)).2 = 0 := by omega
    rcases hstop12 with hL | hF
    · rw [hP0, List.length_cons] at hL
      omega
    · apply hnf
      rw [hP0, Nat.add_zero] at hF
      exact hF
  have hBP : BatchPush S1 (m0 :: rest) =
      ({ (BatchPushLoop S1 (m0 :: rest)).1 with write_notifies :=
          (BatchPushLoop S1 (m0 :: rest)).1.write_notifies + 1 },
        (BatchPushLoop S1 (m0 :: rest)).2) := by
    unfold BatchPush
    rw [if_neg (show ¬ ((m0 :: rest).isEmpty = true) by simp)]
    rw [if_neg (not_not_intro
      (show ∀ mm ∈ m0 :: rest,
        IsValidMessageSize mm.length S1.max_message_size from hval))]
    rw [if_neg (not_not_intro
      (show S1.consumer_alive = true from halive))]
    rcases hbp : BatchPushLoop S1 (m0 :: rest) with ⟨sl, p⟩
    have hp : 0 < p := by
      have h := hP1
      rw [hbp] at h
      exact h
    show (if 0 < p then
        ({ sl with write_notifies := sl.write_notifies + 1 }, p)
      else (sl, p)) = _
    rw [if_pos hp]
  -- invariant data about the starting state
  have hginv := hinv
  obtain ⟨hle, hlt, _⟩ := hginv
  -- first-slot content of the loop run
  have hfirstS := batchPushLoop_first_slot S1 m0 rest
    (show ValidGeom s from hg) (show Inv s from hinv) hval4
    (show ¬ IsQueueFull s.write_index s.read_index s.capacity from hnf)
  have hfirst : ∀ off, off < s.slot_size →
      (BatchPushLoop S1 (m0 :: rest)).1.buffer
        (GetSlotPtr s.write_index s.capacity s.slot_size + off) =
      WriteBytes
        (WriteSizePfx s.buffer
          (GetSlotPtr s.write_index s.capacity s.slot_size) m0.length)
        (GetSlotPtr s.write_index s.capacity s.slot_size +
          SIZE_PREFIX_BYTES) m0
        (GetSlotPtr s.write_index s.capacity s.slot_size + off) := hfirstS
  rw [hBP]
  refine ⟨hP1, ?_, ?_, ?_, ?_, ?_⟩
  · show (BatchPushLoop S1 (m0 :: rest)).1.write_index =
      s.write_index + (BatchPushLoop S1 (m0 :: rest)).2
    exact hw2
  · show (BatchPushLoop S1 (m0 :: rest)).1.reserved_slot =
      some (GetSlotIndex s.write_index s.capacity)
    exact hresv7
  · -- the reserved slot now holds the first batch message
    have hlen0 : m0.length ≤ s.max_message_size :=
      (hval m0 (List.mem_cons_self m0 rest)).2.1
    show ReadBytes (BatchPushLoop S1 (m0 :: rest)).1.buffer
      (GetSlotPtr s.write_index
        ({ (BatchPushLoop S1 (m0 :: rest)).1 with write_notifies :=
          (BatchPushLoop S1 (m0 :: rest)).1.write_notifies + 1 } :
            ChanState).capacity
        ({ (BatchPushLoop S1 (m0 :: rest)).1 with write_notifies :=
          (BatchPushLoop S1 (m0 :: rest)).1.write_notifies + 1 } :
            ChanState).slot_size + SIZE_PREFIX_BYTES)
      (ReadSizePfx (BatchPushLoop S1 (m0 :: rest)).1.buffer
        (GetSlotPtr s.write_index
          ({ (BatchPushLoop S1 (m0 :: rest)).1 with write_notifies :=
            (BatchPushLoop S1 (m0 :: rest)).1.write_notifies + 1 } :
              ChanState).capacity
          ({ (BatchPushLoop S1 (m0 :: rest)).1 with write_notifies :=
            (BatchPushLoop S1 (m0 :: rest)).1.write_notifies + 1 } :
              ChanState).slot_size)) = m0
    have hccap : ({ (BatchPushLoop S1 (m0 :: rest)).1 with write_notifies :=
        (BatchPushLoop S1 (m0 :: rest)).1.write_notifies + 1 } :
          ChanState).capacity = s.capacity := hcap4
    have hcss : ({ (BatchPushLoop S1 (m0 :: rest)).1 with write_notifies :=
        (BatchPushLoop S1 (m0 :: rest)).1.write_notifies + 1 } :
          ChanState).slot_size = s.slot_size := hss6
    rw [hccap, hcss]
    have hpfx : ReadSizePfx (BatchPushLoop S1 (m0 :: rest)).1.buffer
        (GetSlotPtr s.write_index s.capacity s.slot_size) = m0.length := by
      have h1 : ReadSizePfx (BatchPushLoop S1 (m0 :: rest)).1.buffer
          (GetSlotPtr s.write_index s.capacity s.slot_size) =
          ReadSizePfx (WriteBytes
            (WriteSizePfx s.buffer
              (GetSlotPtr s.write_index s.capacity s.slot_size) m0.length)
            (GetSlotPtr s.write_index s.capacity s.slot_size +
              SIZE_PREFIX_BYTES) m0)
            (GetSlotPtr s.write_index s.capacity s.slot_size) :=
        readSizePfx_congr (fun j hj => hfirst j (by omega))
      have h2 : ReadSizePfx (WriteBytes
            (WriteSizePfx s.buffer
              (GetSlotPtr s.write_index s.capacity s.slot_size) m0.length)
            (GetSlotPtr s.write_index s.capacity s.slot_size +
              SIZE_PREFIX_BYTES) m0)
            (GetSlotPtr s.write_index s.capacity s.slot_size) =
          ReadSizePfx (WriteSizePfx s.buffer
            (GetSlotPtr s.write_index s.capacity s.slot_size) m0.length)
            (GetSlotPtr s.write_index s.capacity s.slot_size) :=
        readSizePfx_congr (fun j hj =>
          writeBytes_out (Or.inl (by
            show GetSlotPtr s.write_index s.capacity s.slot_size + j <
              GetSlotPtr s.write_index s.capacity s.slot_size +
                SIZE_PREFIX_BYTES
            unfold SIZE_PREFIX_BYTES
            omega)))
      rw [h1, h2, readSizePfx_writeSizePfx]
      have hlen0 : m0.length ≤ s.max_message_size :=
        (hval m0 (List.mem_cons_self m0 rest)).2.1
      omega
    rw [hpfx]
    have h3 : ReadBytes (BatchPushLoop S1 (m0 :: rest)).1.buffer
        (GetSlotPtr s.write_index s.capacity s.slot_size +
          SIZE_PREFIX_BYTES) m0.length =
        ReadBytes (WriteBytes
          (WriteSizePfx s.buffer
            (GetSlotPtr s.write_index s.capacity s.slot_size) m0.length)
          (GetSlotPtr s.write_index s.capacity s.slot_size +
            SIZE_PREFIX_BYTES) m0)
          (GetSlotPtr s.write_index s.capacity s.slot_size +
            SIZE_PREFIX_BYTES) m0.length :=
      readBytes_congr (fun j hj => by
        have hjs : SIZE_PREFIX_BYTES + j < s.slot_size := by
          unfold SIZE_PREFIX_BYTES
          omega
        have h := hfirst (SIZE_PREFIX_BYTES + j) hjs
        rw [← Nat.add_assoc] at h
        exact h)
    rw [h3]
    exact readBytes_writeBytes hbytes
  · -- a subsequent Commit still succeeds
    have hmv : IsValidMessageSize m
        ({ (BatchPushLoop S1 (m0 :: rest)).1 with write_notifies :=
          (BatchPushLoop S1 (m0 :: rest)).1.write_notifies + 1 } :
            ChanState).max_message_size := by
      have he : ({ (BatchPushLoop S1 (m0 :: rest)).1 with write_notifies :=
          (BatchPushLoop S1 (m0 :: rest)).1.write_notifies + 1 } :
            ChanState).max_message_size = s.max_message_size := hmms5
      rw [he]
      exact hm
    have hrv : ({ (BatchPushLoop S1 (m0 :: rest)).1 with write_notifies :=
        (BatchPushLoop S1 (m0 :: rest)).1.write_notifies + 1 } :
          ChanState).reserved_slot =
        some (GetSlotIndex s.write_index s.capacity) := hresv7
    rw [Commit_some _ m hmv hrv]
  · have hmv : IsValidMessageSize m
        ({ (BatchPushLoop S1 (m0 :: rest)).1 with write_notifies :=
          (BatchPushLoop S1 (m0 :: rest)).1.write_notifies + 1 } :
            ChanState).max_message_size := by
      have he : ({ (BatchPushLoop S1 (m0 :: rest)).1 with write_notifies :=
          (BatchPushLoop S1 (m0 :: rest)).1.write_notifies + 1 } :
            ChanState).max_message_size = s.max_message_size := hmms5
      rw [he]
      exact hm
    have hrv : ({ (BatchPushLoop S1 (m0 :: rest)).1 with write_notifies :=
        (BatchPushLoop S1 (m0 :: rest)).1.write_notifies + 1 } :
          ChanState).reserved_slot =
        some (GetSlotIndex s.write_index s.capacity) := hresv7
    rw [Commit_some _ m hmv hrv]
    show (BatchPushLoop S1 (m0 :: rest)).1.write_index + 1 =
      s.write_index + (BatchPushLoop S1 (m0 :: rest)).2 + 1
    rw [hw2]

/-- Witness for C10: capacity 8, max message size 64, a reservation of 4
bytes outstanding, then a batch of two messages and a commit of size 5. -/
theorem C10_batchPush_ignores_reservation_witness :
    (ValidGeom (initChan 8 64) ∧ Inv (initChan 8 64) ∧
     Reserve (initChan 8 64) 4 =
       some (4, { initChan 8 64 with reserved_slot := some 0 }) ∧
     ([[1, 2], [3]] : List (List Nat)) ≠ [] ∧
     (∀ mm ∈ ([[1, 2], [3]] : List (List Nat)),
       IsValidMessageSize mm.length (initChan 8 64).max_message_size) ∧
     (∀ b ∈ ([[1, 2], [3]] : List (List Nat)).headI, b < 256) ∧
     IsValidMessageSize 5 (initChan 8 64).max_message_size) ∧
    (1 ≤ (BatchPush { initChan 8 64 with reserved_slot := some 0 }
        [[1, 2], [3]]).2 ∧
     (BatchPush { initChan 8 64 with reserved_slot := some 0 }
        [[1, 2], [3]]).1.write_index =
       (initChan 8 64).write_index +
         (BatchPush { initChan 8 64 with reserved_slot := some 0 }
           [[1, 2], [3]]).2 ∧
     (BatchPush { initChan 8 64 with reserved_slot := some 0 }
        [[1, 2], [3]]).1.reserved_slot =
       some (GetSlotIndex (initChan 8 64).write_index
         (initChan 8 64).capacity) ∧
     DecodeSlot (BatchPush { initChan 8 64 with reserved_slot := some 0 }
        [[1, 2], [3]]).1 (initChan 8 64).write_index =
       ([[1, 2], [3]] : List (List Nat)).headI ∧
     (Commit (BatchPush { initChan 8 64 with reserved_slot := some 0 }
        [[1, 2], [3]]).1 5).1 = true ∧
     (Commit (BatchPush { initChan 8 64 with reserved_slot := some 0 }
        [[1, 2], [3]]).1 5).2.write_index =
       (initChan 8 64).write_index +
         (BatchPush { initChan 8 64 with reserved_slot := some 0 }
           [[1, 2], [3]]).2 + 1) :=
  ⟨⟨by decide, by decide, rfl, by decide, by decide, by decide, by decide⟩,
   C10_batchPush_ignores_reservation (initChan 8 64) 4 4
     { initChan 8 64 with reserved_slot := some 0 } [[1, 2], [3]] 5
     (by decide) (by decide) rfl (by decide) (by decide) (by decide)
     (by decide)⟩

end Omni
